import Mathlib

/-!
# Verification of the habituating-server sync-pipeline core

Shallow embedding of the sync pipeline of the `habituating-server`
repository, together with proofs and refutations of the specification
claims C1–C10.

The embedding follows the Python sources:

* `services/utils/content_hasher.py`  — change-detection helper
* `services/utils/db_helpers.py`      — `extract_hashes_from_tree`
* `services/scraper_v2.py`            — `Node` (de)serialisation, URL
  resolution, and the breadth-first `build_tree` crawl
* `services/assignment_extractor.py`  — Stage A (assignment extraction)
* `services/due_date_finder.py`       — Stage D (due-date resolution)
* `temporal/courses/activities.py` and `temporal/courses/workflows.py`
  — the orchestrator

External collaborators (browser fetches, the three LLM oracles, blob
storage, digest functions) are modelled as explicit function parameters,
as the spec treats them as opaque capability interfaces.  Everything the
repository itself computes is translated directly from the source.
-/

set_option autoImplicit false

namespace HabituatingServer

/-! ## Content hasher helper (`services/utils/content_hasher.py`)

`ContentHasher.has_content_changed(current_hash, previous_hash)`:
returns `True` when `previous_hash is None`, else `current_hash != previous_hash`.
The digest itself (`generate_content_hash`) is SHA-256 over text extracted by
an HTML parser, i.e. an external-library computation; where the crawl needs
it we keep it as an abstract function parameter. -/

def has_content_changed (current_hash : String) (previous_hash : Option String) : Bool :=
  match previous_hash with
  | none => true
  | some p => current_hash != p

/-! ## URL resolution (`services/scraper_v2.py`, `resolve_url`)

`resolve_url` strips whitespace, drops the fragment (`split("#")[0]`),
returns absolute `http(s)` links unchanged, prefixes `//host/...` links
with the base URL's scheme, and otherwise defers to
`urllib.parse.urljoin`.  `urljoin` is Python standard library, so the
definitions below model its behaviour on the URL shapes the crawler
passes it (scheme-carrying links returned as-is when the scheme differs
from the base's, protocol-relative and root-relative joins, relative
path merge; dot-segment normalisation is not modelled because no claim
depends on it). -/

def isSchemeChar (c : Char) : Bool :=
  c.isAlpha || c.isDigit || c == '+' || c == '-' || c == '.'

/-- Python `str.strip()`: leading and trailing whitespace removed. -/
def pyStrip (s : String) : String :=
  String.mk (((s.data.dropWhile Char.isWhitespace).reverse.dropWhile
    Char.isWhitespace).reverse)

/-- Python `s.startswith(pre)`. -/
def pyStartsWith (s pre : String) : Bool :=
  pre.data.isPrefixOf s.data

/-- Scheme of a URL as `urllib.parse.urlsplit` extracts it: the text
before the first `:` when a `:` is present, that text is non-empty and
made of scheme characters; lower-cased; otherwise the empty string. -/
def urlScheme (u : String) : String :=
  let pre := u.data.takeWhile (fun c => c ≠ ':')
  if pre.length < u.data.length ∧ pre ≠ [] ∧ pre.all isSchemeChar then
    String.mk (pre.map Char.toLower)
  else ""

/-- The part of a URL after its `scheme:` prefix (the URL itself when it
carries no scheme). -/
def afterScheme (u : String) : String :=
  if urlScheme u = "" then u
  else String.mk (u.data.drop ((u.data.takeWhile (fun c => c ≠ ':')).length + 1))

/-- Network location of an absolute URL: the text between `//` and the
next `/`, `?` or `#`. -/
def urlNetloc (u : String) : String :=
  let rest := (afterScheme u).data
  if ['/', '/'].isPrefixOf rest then
    String.mk ((rest.drop 2).takeWhile (fun c => c ≠ '/' ∧ c ≠ '?' ∧ c ≠ '#'))
  else ""

/-- Path component (query and fragment excluded) of an absolute URL. -/
def urlPath (u : String) : String :=
  let rest := (afterScheme u).data
  if ['/', '/'].isPrefixOf rest then
    String.mk (((rest.drop 2).dropWhile (fun c => c ≠ '/' ∧ c ≠ '?' ∧ c ≠ '#')).takeWhile
      (fun c => c ≠ '?' ∧ c ≠ '#'))
  else String.mk (rest.takeWhile (fun c => c ≠ '?' ∧ c ≠ '#'))

/-- Directory prefix of a path, as `urljoin`'s relative merge uses it
(`path[:path.rfind('/')+1]`): everything up to and including the last
`/`, or the root when there is none. -/
def dirOfPath (p : String) : String :=
  let r := p.data.reverse.dropWhile (fun c => c ≠ '/')
  if r.isEmpty then "/" else String.mk r.reverse

/-- Model of `urllib.parse.urljoin` on the shapes the crawler produces. -/
def urljoin (base url : String) : String :=
  if base = "" then url
  else if url = "" then base
  else
    let bs := urlScheme base
    let us := urlScheme url
    if us ≠ "" ∧ us ≠ bs then url
    else
      let u := if us ≠ "" then afterScheme url else url
      if pyStartsWith u "//" then bs ++ ":" ++ u
      else
        let netloc := urlNetloc base
        if pyStartsWith u "/" then bs ++ "://" ++ netloc ++ u
        else if pyStartsWith u "?" then bs ++ "://" ++ netloc ++ urlPath base ++ u
        else bs ++ "://" ++ netloc ++ dirOfPath (urlPath base) ++ u

/-- The fragment-stripping preprocessing `resolve_url` applies:
`link.strip().split("#")[0]` — the stripped link's characters before its
first `#`. -/
def defrag (link : String) : String :=
  String.mk ((pyStrip link).data.takeWhile (fun c => c ≠ '#'))

/-- `ScraperV2.resolve_url(base_url, link)`. -/
def resolve_url (base_url link : String) : String :=
  if link = "" then ""
  else
    let l := defrag link
    if pyStartsWith l "http://" || pyStartsWith l "https://" then l
    else if pyStartsWith l "//" then urlScheme base_url ++ ":" ++ l
    else urljoin base_url l

/-- The post-oracle resolution loop of `ScraperV2.get_relevant_links`:
resolve every raw link against the current URL and keep the non-empty
results. -/
def resolveLinks (current_url : String) (raw : List String) : List String :=
  (raw.map (resolve_url current_url)).filter (fun l => l ≠ "")

/-! ## The crawl (`ScraperV2.build_tree`)

The crawl is breadth-first and level-synchronous: the queue starts with
the root at depth 0 (the visited set seeded with the root URL), each
round pops every entry of the current depth, and children are enqueued
at `depth + 1` only when `current_depth < max_depth - 1` (with
`max_depth = 3`) and the resolved link is unseen.

External effects are an environment:

* `fetch url = none` models `scrape_page` raising (e.g. a timeout);
* `linkOracle url html = none` models the link-analysis call raising,
  `some (raw_links, flag)` its parsed answer;
* `saveOk url = false` models `save_html` raising after both the upload
  and the update attempt failed;
* `hashFn html url` stands for `ContentHasher.generate_content_hash`
  (an SHA-256 digest of parsed text — external libraries);
* `savePath url` stands for `f"{job_sync_id}/{md5(url)}.html"`;
* `prevHashes` is the map `extract_hashes_from_tree` built from the
  previous tree, as an association list.

The produced tree is represented as the list of its `PageNode`s, each
remembering its depth; the per-node fields are set exactly as
`build_tree` sets them (defaults from `Node.__init__` when an exception
interrupts the per-node block). -/

def MAX_DEPTH : Nat := 3

structure CrawlEnv where
  fetch : String → Option (String × String)
  linkOracle : String → String → Option (List String × Bool)
  saveOk : String → Bool
  hashFn : String → String → String
  savePath : String → String
  now : String
  prevHashes : List (String × String)

structure CrawledNode where
  url : String
  depth : Nat
  title : String
  assignment_data_found : Bool
  html_path : Option String
  content_hash : Option String
  content_changed : Bool
  previous_hash : Option String
  last_scraped : Option String
deriving DecidableEq, Repr

/-- First-match lookup in an association list (dict lookup). -/
def lookupStr (m : List (String × String)) (k : String) : Option String :=
  (m.find? (fun e => e.1 = k)).map (fun e => e.2)

/-- A `Node(url, parent)` as `Node.__init__` leaves it before the
per-node block runs: empty title, `assignment_data_found = False`,
no `html_path`, no `content_hash`, `content_changed = True`,
no `previous_hash`, no `last_scraped`. -/
def defaultCrawledNode (url : String) (depth : Nat) : CrawledNode :=
  { url := url, depth := depth, title := "", assignment_data_found := false
  , html_path := none, content_hash := none, content_changed := true
  , previous_hash := none, last_scraped := none }

/-- The child-enqueueing block of `build_tree`: when
`current_depth < max_depth - 1`, walk the resolved links in order and,
for each link not yet visited, mark it visited and append a child at
`depth + 1`.  Returns the new queue entries and the updated visited
set. -/
def enqueueStep (depth : Nat) (acc : List (String × Nat) × List String)
    (link : String) : List (String × Nat) × List String :=
  if link ∈ acc.2 then acc
  else (acc.1 ++ [(link, depth + 1)], link :: acc.2)

def enqueueLinks (depth : Nat) (links : List String) (visited : List String) :
    List (String × Nat) × List String :=
  if depth < MAX_DEPTH - 1 then
    links.foldl (enqueueStep depth) ([], visited)
  else ([], visited)

/-- Processing of one queue entry inside the `for node in
current_level_nodes` loop, including the surrounding `try/except`:
a failure at any point leaves the fields already assigned and skips the
rest of the block. -/
def processOne (env : CrawlEnv) (url : String) (depth : Nat) (visited : List String) :
    CrawledNode × List (String × Nat) × List String :=
  match env.fetch url with
  | none => (defaultCrawledNode url depth, [], visited)
  | some (html, title) =>
    let ch := env.hashFn html url
    let prev := lookupStr env.prevHashes url
    let changed : Bool :=
      match prev with
      | some ph => ch != ph
      | none => true
    let base : CrawledNode :=
      { defaultCrawledNode url depth with
          title := title, content_hash := some ch, previous_hash := prev
        , content_changed := changed, last_scraped := some env.now }
    match env.linkOracle url html with
    | none => (base, [], visited)
    | some (raw, flag) =>
      let links := resolveLinks url raw
      let flagged := { base with assignment_data_found := flag }
      if env.saveOk url then
        let saved := { flagged with html_path := some (env.savePath url) }
        let (children, visited') := enqueueLinks depth links visited
        (saved, children, visited')
      else (flagged, [], visited)

/-- One level of the level-synchronous loop: process the popped entries
in order, threading the visited set, and collect the next level's queue
entries in order. -/
def processLevel (env : CrawlEnv) :
    List (String × Nat) → List String →
    List CrawledNode × List (String × Nat) × List String
  | [], visited => ([], [], visited)
  | (url, d) :: rest, visited =>
    let (node, children, visited') := processOne env url d visited
    let (nodes, next, visited'') := processLevel env rest visited'
    (node :: nodes, children ++ next, visited'')

/-- The `while queue` loop.  The guard `depth < max_depth - 1` empties
the queue after the level at depth `MAX_DEPTH - 1`, so `MAX_DEPTH`
rounds always suffice; the fuel only bounds that. -/
def crawlLoop (env : CrawlEnv) :
    Nat → List (String × Nat) → List String → List CrawledNode
  | 0, _, _ => []
  | _, [], _ => []
  | Nat.succ fuel, level, visited =>
    let (nodes, next, visited') := processLevel env level visited
    nodes ++ crawlLoop env fuel next visited'

/-- `build_tree(root_url, …)`: queue seeded with the root at depth 0 and
the visited set with the root URL. -/
def crawl (env : CrawlEnv) (root_url : String) : List CrawledNode :=
  crawlLoop env MAX_DEPTH [(root_url, 0)] [root_url]

/-! ### Crawl lemmas -/

theorem enqueueFold_spec (d : Nat) (links : List String) :
    ∀ (q : List (String × Nat)) (v : List String),
    ((q.map Prod.fst).Nodup ∧ ∀ l ∈ q.map Prod.fst, l ∈ v) →
    (((links.foldl (enqueueStep d) (q, v)).1.map Prod.fst).Nodup
     ∧ (∀ l ∈ (links.foldl (enqueueStep d) (q, v)).1.map Prod.fst,
          l ∈ (links.foldl (enqueueStep d) (q, v)).2)
     ∧ (∀ u ∈ v, u ∈ (links.foldl (enqueueStep d) (q, v)).2)
     ∧ (∀ l, l ∈ (links.foldl (enqueueStep d) (q, v)).1.map Prod.fst ↔
          (l ∈ q.map Prod.fst ∨ (l ∈ links ∧ l ∉ v)))
     ∧ (∀ e ∈ (links.foldl (enqueueStep d) (q, v)).1, e ∈ q ∨ e.2 = d + 1)) := by
  induction links with
  | nil =>
    intro q v hqv
    simp only [List.foldl_nil]
    refine ⟨hqv.1, hqv.2, fun u hu => hu, fun l => ?_, fun e he => Or.inl he⟩
    simp
  | cons x xs ih =>
    intro q v hqv
    simp only [List.foldl_cons]
    by_cases hx : x ∈ v
    · have hstep : enqueueStep d (q, v) x = (q, v) := by
        simp [enqueueStep, hx]
      rw [hstep]
      obtain ⟨h1, h2, h3, h4, h5⟩ := ih q v hqv
      refine ⟨h1, h2, h3, fun l => ?_, h5⟩
      rw [h4 l]
      constructor
      · rintro (hl | ⟨hl1, hl2⟩)
        · exact Or.inl hl
        · exact Or.inr ⟨List.mem_cons_of_mem _ hl1, hl2⟩
      · rintro (hl | ⟨hl1, hl2⟩)
        · exact Or.inl hl
        · rcases List.mem_cons.mp hl1 with rfl | hl1
          · exact absurd hx hl2
          · exact Or.inr ⟨hl1, hl2⟩
    · have hstep : enqueueStep d (q, v) x = (q ++ [(x, d + 1)], x :: v) := by
        simp [enqueueStep, hx]
      rw [hstep]
      have hq' : ((q ++ [(x, d + 1)]).map Prod.fst).Nodup ∧
          ∀ l ∈ (q ++ [(x, d + 1)]).map Prod.fst, l ∈ x :: v := by
        constructor
        · rw [List.map_append, List.nodup_append]
          refine ⟨hqv.1, by simp, ?_⟩
          intro l hl hl'
          simp only [List.map_cons, List.map_nil, List.mem_singleton] at hl'
          subst hl'
          exact hx (hqv.2 l hl)
        · intro l hl
          rw [List.map_append, List.mem_append] at hl
          rcases hl with hl | hl
          · exact List.mem_cons_of_mem _ (hqv.2 l hl)
          · simp only [List.map_cons, List.map_nil, List.mem_singleton] at hl
            subst hl; exact List.mem_cons_self _ _
      obtain ⟨h1, h2, h3, h4, h5⟩ := ih (q ++ [(x, d + 1)]) (x :: v) hq'
      refine ⟨h1, h2, fun u hu => h3 u (List.mem_cons_of_mem _ hu), fun l => ?_,
        fun e he => ?_⟩
      · rw [h4 l]
        constructor
        · rintro (hl | ⟨hl1, hl2⟩)
          · rw [List.map_append, List.mem_append] at hl
            rcases hl with hl | hl
            · exact Or.inl hl
            · simp only [List.map_cons, List.map_nil, List.mem_singleton] at hl
              subst hl
              exact Or.inr ⟨List.mem_cons_self _ _, hx⟩
          · refine Or.inr ⟨List.mem_cons_of_mem _ hl1, fun hlv => hl2 (List.mem_cons_of_mem _ hlv)⟩
        · rintro (hl | ⟨hl1, hl2⟩)
          · refine Or.inl ?_
            rw [List.map_append, List.mem_append]
            exact Or.inl hl
          · rcases List.mem_cons.mp hl1 with rfl | hl1
            · refine Or.inl ?_
              rw [List.map_append, List.mem_append]
              simp
            · by_cases hlx : l = x
              · subst hlx
                refine Or.inl ?_
                rw [List.map_append, List.mem_append]
                simp
              · refine Or.inr ⟨hl1, ?_⟩
                intro hlv
                rcases List.mem_cons.mp hlv with h | h
                · exact hlx h
                · exact hl2 h
      · rcases h5 e he with he' | he'
        · rcases List.mem_append.mp he' with h | h
          · exact Or.inl h
          · simp only [List.mem_singleton] at h
            subst h; exact Or.inr rfl
        · exact Or.inr he'

theorem enqueueLinks_mem_iff (d : Nat) (links visited : List String) (l : String) :
    l ∈ (enqueueLinks d links visited).1.map Prod.fst ↔
      (l ∈ links ∧ l ∉ visited ∧ d + 1 < MAX_DEPTH) := by
  unfold enqueueLinks
  by_cases hd : d < MAX_DEPTH - 1
  · rw [if_pos hd]
    have := (enqueueFold_spec d links [] visited (by simp)).2.2.2.1 l
    rw [this]
    simp only [List.map_nil, List.not_mem_nil, false_or]
    constructor
    · rintro ⟨h1, h2⟩
      exact ⟨h1, h2, by omega⟩
    · rintro ⟨h1, h2, _⟩
      exact ⟨h1, h2⟩
  · rw [if_neg hd]
    simp only [List.map_nil, List.not_mem_nil, false_iff]
    rintro ⟨_, _, h3⟩
    exact hd (by omega)

theorem enqueueLinks_spec (d : Nat) (links visited : List String) :
    (((enqueueLinks d links visited).1.map Prod.fst).Nodup
     ∧ (∀ l ∈ (enqueueLinks d links visited).1.map Prod.fst,
          l ∈ (enqueueLinks d links visited).2 ∧ l ∉ visited)
     ∧ (∀ u ∈ visited, u ∈ (enqueueLinks d links visited).2)
     ∧ (∀ e ∈ (enqueueLinks d links visited).1, e.2 = d + 1 ∧ d + 1 < MAX_DEPTH)) := by
  unfold enqueueLinks
  by_cases hd : d < MAX_DEPTH - 1
  · rw [if_pos hd]
    obtain ⟨h1, h2, h3, h4, h5⟩ := enqueueFold_spec d links [] visited (by simp)
    refine ⟨h1, fun l hl => ⟨h2 l hl, ?_⟩, h3, fun e he => ?_⟩
    · have := (h4 l).mp hl
      simp only [List.map_nil, List.not_mem_nil, false_or] at this
      exact this.2
    · rcases h5 e he with h | h
      · simp at h
      · exact ⟨h, by omega⟩
  · rw [if_neg hd]
    exact ⟨by simp, by simp, fun u hu => hu, by simp⟩

theorem processOne_url (env : CrawlEnv) (url : String) (d : Nat) (vis : List String) :
    (processOne env url d vis).1.url = url := by
  unfold processOne
  cases hf : env.fetch url with
  | none => simp [defaultCrawledNode]
  | some p =>
    obtain ⟨html, title⟩ := p
    cases ho : env.linkOracle url html with
    | none => simp [ho, defaultCrawledNode]
    | some r =>
      obtain ⟨raw, flag⟩ := r
      by_cases hs : env.saveOk url <;> simp [ho, hs, defaultCrawledNode]

theorem processOne_depth (env : CrawlEnv) (url : String) (d : Nat) (vis : List String) :
    (processOne env url d vis).1.depth = d := by
  unfold processOne
  cases hf : env.fetch url with
  | none => simp [defaultCrawledNode]
  | some p =>
    obtain ⟨html, title⟩ := p
    cases ho : env.linkOracle url html with
    | none => simp [ho, defaultCrawledNode]
    | some r =>
      obtain ⟨raw, flag⟩ := r
      by_cases hs : env.saveOk url <;> simp [ho, hs, defaultCrawledNode]

/-- The change-flag invariant holds on every node `processOne` emits,
whatever failures occur. -/
theorem processOne_changed_inv (env : CrawlEnv) (url : String) (d : Nat)
    (vis : List String) :
    ((processOne env url d vis).1.content_changed = true ↔
      ((processOne env url d vis).1.previous_hash = none ∨
        (processOne env url d vis).1.previous_hash ≠ (processOne env url d vis).1.content_hash)) := by
  unfold processOne
  cases hf : env.fetch url with
  | none => simp [defaultCrawledNode]
  | some p =>
    obtain ⟨html, title⟩ := p
    cases hp : lookupStr env.prevHashes url with
    | none =>
      cases ho : env.linkOracle url html with
      | none => simp [ho, defaultCrawledNode, hp]
      | some r =>
        obtain ⟨raw, flag⟩ := r
        by_cases hs : env.saveOk url <;> simp [ho, hs, defaultCrawledNode, hp]
    | some ph =>
      cases ho : env.linkOracle url html with
      | none =>
        simp [ho, defaultCrawledNode, hp, bne_iff_ne]
        tauto
      | some r =>
        obtain ⟨raw, flag⟩ := r
        by_cases hs : env.saveOk url <;>
          · simp [ho, hs, defaultCrawledNode, hp, bne_iff_ne]
            tauto

/-- A fetch failure (`scrape_page` raising, e.g. a timeout) leaves the
node exactly as `Node.__init__` created it. -/
theorem processOne_fetch_none (env : CrawlEnv) (url : String) (d : Nat)
    (vis : List String) (h : env.fetch url = none) :
    (processOne env url d vis).1 = defaultCrawledNode url d := by
  unfold processOne
  rw [h]

/-- A URL absent from the previous-sync hash map is always flagged
changed. -/
theorem processOne_prev_none (env : CrawlEnv) (url : String) (d : Nat)
    (vis : List String) (h : lookupStr env.prevHashes url = none) :
    (processOne env url d vis).1.content_changed = true := by
  unfold processOne
  cases hf : env.fetch url with
  | none => simp [defaultCrawledNode]
  | some p =>
    obtain ⟨html, title⟩ := p
    cases ho : env.linkOracle url html with
    | none => simp [ho, defaultCrawledNode, h]
    | some r =>
      obtain ⟨raw, flag⟩ := r
      by_cases hs : env.saveOk url <;> simp [ho, hs, defaultCrawledNode, h]

theorem processOne_visited_spec (env : CrawlEnv) (url : String) (d : Nat)
    (vis : List String) :
    ((∀ u ∈ vis, u ∈ (processOne env url d vis).2.2)
     ∧ (((processOne env url d vis).2.1.map Prod.fst).Nodup)
     ∧ (∀ l ∈ (processOne env url d vis).2.1.map Prod.fst,
          l ∈ (processOne env url d vis).2.2 ∧ l ∉ vis)
     ∧ (∀ e ∈ (processOne env url d vis).2.1, e.2 = d + 1 ∧ d + 1 < MAX_DEPTH)) := by
  unfold processOne
  cases hf : env.fetch url with
  | none => exact ⟨fun u hu => hu, by simp, by simp, by simp⟩
  | some p =>
    obtain ⟨html, title⟩ := p
    cases ho : env.linkOracle url html with
    | none => simp only [ho]; exact ⟨fun u hu => hu, by simp, by simp, by simp⟩
    | some r =>
      obtain ⟨raw, flag⟩ := r
      simp only [ho]
      by_cases hs : env.saveOk url
      · simp only [hs, if_true]
        obtain ⟨h1, h2, h3, h4⟩ := enqueueLinks_spec d (resolveLinks url raw) vis
        exact ⟨h3, h1, h2, h4⟩
      · simp only [hs, if_false]
        exact ⟨fun u hu => hu, by simp, by simp, by simp⟩

/-- Every node a level emits comes from `processOne` on one of the
level's queue entries. -/
theorem mem_processLevel (env : CrawlEnv) :
    ∀ (level : List (String × Nat)) (visited : List String) (n : CrawledNode),
    n ∈ (processLevel env level visited).1 →
    ∃ url d vis, (url, d) ∈ level ∧ n = (processOne env url d vis).1
  | [], _, n, h => by simp [processLevel] at h
  | (url, d) :: rest, visited, n, h => by
    simp only [processLevel] at h
    rcases List.mem_cons.mp h with rfl | h'
    · exact ⟨url, d, visited, List.mem_cons_self _ _, rfl⟩
    · obtain ⟨u', d', v', hm, he⟩ := mem_processLevel env rest
        (processOne env url d visited).2.2 n h'
      exact ⟨u', d', v', List.mem_cons_of_mem _ hm, he⟩

/-- Level processing: url trace, visited-set growth, and the next
level's queue entries (fresh, mutually distinct, claimed, at depth
`parent + 1 < MAX_DEPTH`). -/
theorem processLevel_spec (env : CrawlEnv) :
    ∀ (level : List (String × Nat)) (visited : List String),
    (((processLevel env level visited).1.map CrawledNode.url = level.map Prod.fst)
     ∧ (∀ u ∈ visited, u ∈ (processLevel env level visited).2.2)
     ∧ (((processLevel env level visited).2.1.map Prod.fst).Nodup)
     ∧ (∀ l ∈ (processLevel env level visited).2.1.map Prod.fst,
          l ∈ (processLevel env level visited).2.2 ∧ l ∉ visited)
     ∧ (∀ e ∈ (processLevel env level visited).2.1, ∃ d : Nat, e.2 = d + 1 ∧ d + 1 < MAX_DEPTH))
  | [], visited => by
    refine ⟨by simp [processLevel], fun u hu => hu, by simp [processLevel],
      by simp [processLevel], by simp [processLevel]⟩
  | (url, d) :: rest, visited => by
    obtain ⟨p1, p2, p3, p4⟩ := processOne_visited_spec env url d visited
    obtain ⟨q1, q2, q3, q4, q5⟩ := processLevel_spec env rest (processOne env url d visited).2.2
    have hme : processLevel env ((url, d) :: rest) visited =
        ((processOne env url d visited).1 ::
          (processLevel env rest (processOne env url d visited).2.2).1,
         (processOne env url d visited).2.1 ++
          (processLevel env rest (processOne env url d visited).2.2).2.1,
         (processLevel env rest (processOne env url d visited).2.2).2.2) := rfl
    rw [hme]
    refine ⟨?_, ?_, ?_, ?_, ?_⟩
    · simp only [List.map_cons, processOne_url, q1]
    · intro u hu
      exact q2 u (p1 u hu)
    · rw [List.map_append, List.nodup_append]
      refine ⟨p2, q3, ?_⟩
      intro l hl hl'
      have hlv : l ∈ (processOne env url d visited).2.2 := (p3 l hl).1
      exact (q4 l hl').2 hlv
    · intro l hl
      rw [List.map_append, List.mem_append] at hl
      rcases hl with hl | hl
      · obtain ⟨hin, hnin⟩ := p3 l hl
        exact ⟨q2 l hin, hnin⟩
      · obtain ⟨hin, hnin⟩ := q4 l hl
        exact ⟨hin, fun hv => hnin (p1 l hv)⟩
    · intro e he
      rcases List.mem_append.mp he with he | he
      · exact ⟨d, (p4 e he).1, (p4 e he).2⟩
      · exact q5 e he

/-- Every node the crawl loop emits comes from `processOne` on some
queue entry. -/
theorem mem_crawlLoop (env : CrawlEnv) :
    ∀ (fuel : Nat) (level : List (String × Nat)) (visited : List String) (n : CrawledNode),
    n ∈ crawlLoop env fuel level visited →
    ∃ url d vis, n = (processOne env url d vis).1
  | 0, level, visited, n => by simp [crawlLoop]
  | Nat.succ fuel, [], visited, n => by simp [crawlLoop]
  | Nat.succ fuel, (e0 :: rest), visited, n => by
    intro h
    simp only [crawlLoop] at h
    rcases List.mem_append.mp h with h | h
    · obtain ⟨url, d, vis, _, he⟩ := mem_processLevel env (e0 :: rest) visited n h
      exact ⟨url, d, vis, he⟩
    · exact mem_crawlLoop env fuel _ _ n h

/-- Depth bound: if every queue entry is at depth `≤ MAX_DEPTH`, so is
every emitted node (new entries are always at depth `< MAX_DEPTH`). -/
theorem crawlLoop_depth (env : CrawlEnv) :
    ∀ (fuel : Nat) (level : List (String × Nat)) (visited : List String),
    (∀ e ∈ level, e.2 ≤ MAX_DEPTH) →
    ∀ n ∈ crawlLoop env fuel level visited, n.depth ≤ MAX_DEPTH
  | 0, level, visited => by simp [crawlLoop]
  | Nat.succ fuel, [], visited => by simp [crawlLoop]
  | Nat.succ fuel, (e0 :: rest), visited => by
    intro hlev n h
    simp only [crawlLoop] at h
    rcases List.mem_append.mp h with h | h
    · obtain ⟨url, d, vis, hm, he⟩ := mem_processLevel env (e0 :: rest) visited n h
      have := hlev (url, d) hm
      rw [he, processOne_depth]
      exact this
    · refine crawlLoop_depth env fuel _ _ ?_ n h
      intro e he
      obtain ⟨d, hd, hlt⟩ := (processLevel_spec env (e0 :: rest) visited).2.2.2.2 e he
      omega

/-- URL uniqueness: with distinct queue URLs all already claimed in the
visited set, the crawl loop emits pairwise distinct URLs, each either a
queued URL or a fresh one. -/
theorem crawlLoop_nodup (env : CrawlEnv) :
    ∀ (fuel : Nat) (level : List (String × Nat)) (visited : List String),
    ((level.map Prod.fst).Nodup) → (∀ e ∈ level, e.1 ∈ visited) →
    (((crawlLoop env fuel level visited).map CrawledNode.url).Nodup
     ∧ ∀ u ∈ (crawlLoop env fuel level visited).map CrawledNode.url,
        u ∈ level.map Prod.fst ∨ u ∉ visited)
  | 0, level, visited => by simp [crawlLoop]
  | Nat.succ fuel, [], visited => by simp [crawlLoop]
  | Nat.succ fuel, (e0 :: rest), visited => by
    intro hnd hvis
    obtain ⟨p1, p2, p3, p4, _⟩ := processLevel_spec env (e0 :: rest) visited
    have hnext1 : (((processLevel env (e0 :: rest) visited).2.1).map Prod.fst).Nodup := p3
    have hnext2 : ∀ e ∈ (processLevel env (e0 :: rest) visited).2.1,
        e.1 ∈ (processLevel env (e0 :: rest) visited).2.2 := by
      intro e he
      exact (p4 e.1 (List.mem_map_of_mem Prod.fst he)).1
    obtain ⟨r1, r2⟩ := crawlLoop_nodup env fuel
      (processLevel env (e0 :: rest) visited).2.1
      (processLevel env (e0 :: rest) visited).2.2 hnext1 hnext2
    have hloop : crawlLoop env (Nat.succ fuel) (e0 :: rest) visited =
        (processLevel env (e0 :: rest) visited).1 ++
          crawlLoop env fuel (processLevel env (e0 :: rest) visited).2.1
            (processLevel env (e0 :: rest) visited).2.2 := rfl
    rw [hloop]
    constructor
    · rw [List.map_append, List.nodup_append]
      refine ⟨by rw [p1]; exact hnd, r1, ?_⟩
      intro u hu hu'
      have huv : u ∈ visited := by
        rw [p1] at hu
        obtain ⟨e, he, heq⟩ := List.mem_map.mp hu
        subst heq
        exact hvis e he
      rcases r2 u hu' with h | h
      · exact (p4 u h).2 huv
      · exact h ((processLevel_spec env (e0 :: rest) visited).2.1 u huv)
    · intro u hu
      rw [List.map_append, List.mem_append] at hu
      rcases hu with hu | hu
      · rw [p1] at hu
        exact Or.inl hu
      · rcases r2 u hu with h | h
        · exact Or.inr ((p4 u h).2)
        · refine Or.inr fun huv => h ?_
          exact (processLevel_spec env (e0 :: rest) visited).2.1 u huv

/-! ## `Node` serialisation (`scraper_v2.py`, `Node.to_dict` / `Node.from_dict`)

`Node.to_dict` renders a page-tree node as a JSON dictionary with the
eight persisted fields plus the recursively rendered `children`;
`Node.from_dict` rebuilds a node, requiring `url` and defaulting the
rest (`title = ""`, `assignment_data_found = False`,
`content_changed = True`, `None` for the optional fields, `[]` for
`children`).  JSON values are modelled by `JVal`; `from_dict` is
`Option`-valued because the Python raises on a missing `url` or a
non-dictionary input (values of unexpected type, which `to_dict` never
produces, are also rejected).  The in-memory `parent` back-pointer is
not a persisted field and is not modelled. -/

inductive JVal where
  | null
  | bool (b : Bool)
  | str (s : String)
  | arr (elems : List JVal)
  | obj (fields : List (String × JVal))
deriving Repr

inductive PyNode where
  | mk (url title : String) (assignment_data_found : Bool)
       (html_path content_hash : Option String) (content_changed : Bool)
       (previous_hash last_scraped : Option String)
       (children : List PyNode)

def PyNode.url : PyNode → String
  | .mk u _ _ _ _ _ _ _ _ => u

def PyNode.title : PyNode → String
  | .mk _ t _ _ _ _ _ _ _ => t

def PyNode.assignment_data_found : PyNode → Bool
  | .mk _ _ a _ _ _ _ _ _ => a

def PyNode.html_path : PyNode → Option String
  | .mk _ _ _ h _ _ _ _ _ => h

def PyNode.content_hash : PyNode → Option String
  | .mk _ _ _ _ c _ _ _ _ => c

def PyNode.content_changed : PyNode → Bool
  | .mk _ _ _ _ _ c _ _ _ => c

def PyNode.previous_hash : PyNode → Option String
  | .mk _ _ _ _ _ _ p _ _ => p

def PyNode.last_scraped : PyNode → Option String
  | .mk _ _ _ _ _ _ _ l _ => l

def PyNode.children : PyNode → List PyNode
  | .mk _ _ _ _ _ _ _ _ cs => cs

/-- A Python `None`-or-string value as JSON. -/
def optJStr : Option String → JVal
  | none => JVal.null
  | some s => JVal.str s

/-- Dictionary lookup on a JSON object's field list. -/
def jGet (fields : List (String × JVal)) (k : String) : Option JVal :=
  (fields.find? (fun e => e.1 = k)).map (fun e => e.2)

/-- The field list `Node.to_dict` emits. -/
def nodeFields (url title : String) (adf : Bool) (hp ch : Option String)
    (cc : Bool) (ph ls : Option String) (childrenJ : JVal) :
    List (String × JVal) :=
  [ ("url", JVal.str url)
  , ("title", JVal.str title)
  , ("assignment_data_found", JVal.bool adf)
  , ("html_path", optJStr hp)
  , ("content_hash", optJStr ch)
  , ("content_changed", JVal.bool cc)
  , ("previous_hash", optJStr ph)
  , ("last_scraped", optJStr ls)
  , ("children", childrenJ) ]

mutual

/-- `Node.to_dict`. -/
def nodeToDict : PyNode → JVal
  | .mk url title adf hp ch cc ph ls children =>
    JVal.obj (nodeFields url title adf hp ch cc ph ls (JVal.arr (nodesToDict children)))

def nodesToDict : List PyNode → List JVal
  | [] => []
  | n :: ns => nodeToDict n :: nodesToDict ns

end

/-- A required string field (`data["url"]`). -/
def jStr? : Option JVal → Option String
  | some (JVal.str s) => some s
  | _ => none

/-- `data.get(key, default_string)`. -/
def jStrD : Option JVal → String → Option String
  | none, d => some d
  | some (JVal.str s), _ => some s
  | some _, _ => none

/-- `data.get(key, default_bool)`. -/
def jBoolD : Option JVal → Bool → Option Bool
  | none, d => some d
  | some (JVal.bool b), _ => some b
  | some _, _ => none

/-- `data.get(key)` for a nullable string field. -/
def jStrOpt : Option JVal → Option (Option String)
  | none => some none
  | some JVal.null => some none
  | some (JVal.str s) => some (some s)
  | some _ => none

theorem sizeOf_of_jGet {fields : List (String × JVal)} {k : String} {v : JVal}
    (h : jGet fields k = some v) : sizeOf v < sizeOf (JVal.obj fields) := by
  unfold jGet at h
  rcases ho : fields.find? (fun e => e.1 = k) with _ | e
  · rw [ho] at h; simp at h
  · rw [ho] at h
    simp only [Option.map_some', Option.some.injEq] at h
    subst h
    have hm : e ∈ fields := List.mem_of_find?_eq_some ho
    have h1 : sizeOf e < sizeOf fields := List.sizeOf_lt_of_mem hm
    obtain ⟨a, b⟩ := e
    simp only [Prod.mk.sizeOf_spec] at h1 ⊢
    simp only [JVal.obj.sizeOf_spec]
    omega

mutual

/-- `Node.from_dict`. -/
def nodeFromDict : JVal → Option PyNode
  | JVal.obj fields => do
    let url ← jStr? (jGet fields "url")
    let title ← jStrD (jGet fields "title") ""
    let adf ← jBoolD (jGet fields "assignment_data_found") false
    let hp ← jStrOpt (jGet fields "html_path")
    let ch ← jStrOpt (jGet fields "content_hash")
    let cc ← jBoolD (jGet fields "content_changed") true
    let ph ← jStrOpt (jGet fields "previous_hash")
    let ls ← jStrOpt (jGet fields "last_scraped")
    let children ←
      match h : jGet fields "children" with
      | none => some []
      | some (JVal.arr elems) => nodesFromDict elems
      | some _ => none
    some (PyNode.mk url title adf hp ch cc ph ls children)
  | _ => none
termination_by v => sizeOf v
decreasing_by
  have := sizeOf_of_jGet h
  simp only [JVal.arr.sizeOf_spec] at this
  omega

def nodesFromDict : List JVal → Option (List PyNode)
  | [] => some []
  | v :: vs => do
    let n ← nodeFromDict v
    let ns ← nodesFromDict vs
    some (n :: ns)
termination_by vs => sizeOf vs
decreasing_by
  all_goals simp
  omega

end

/-- Induction over page trees: to prove a property of every node it
suffices to prove it for a node assuming it for all its children. -/
theorem PyNode.inductionOn {P : PyNode → Prop}
    (step : ∀ url title adf hp ch cc ph ls children,
      (∀ c ∈ children, P c) → P (.mk url title adf hp ch cc ph ls children)) :
    ∀ n, P n
  | .mk url title adf hp ch cc ph ls children =>
    step url title adf hp ch cc ph ls children
      (fun c hc =>
        have : sizeOf c < sizeOf (PyNode.mk url title adf hp ch cc ph ls children) := by
          have := List.sizeOf_lt_of_mem hc
          simp only [PyNode.mk.sizeOf_spec]
          omega
        PyNode.inductionOn step c)
termination_by n => sizeOf n

theorem jStrOpt_optJStr (o : Option String) : jStrOpt (some (optJStr o)) = some o := by
  cases o <;> rfl

theorem nodesFromDict_of_pointwise (ns : List PyNode)
    (ih : ∀ c ∈ ns, nodeFromDict (nodeToDict c) = some c) :
    nodesFromDict (nodesToDict ns) = some ns := by
  induction ns with
  | nil => simp [nodesToDict, nodesFromDict]
  | cons n rest ihrest =>
    have h1 : nodeFromDict (nodeToDict n) = some n := ih n (List.mem_cons_self _ _)
    have h2 : nodesFromDict (nodesToDict rest) = some rest :=
      ihrest (fun c hc => ih c (List.mem_cons_of_mem _ hc))
    simp only [nodesToDict, nodesFromDict, h1, h2, Option.bind_eq_bind,
      Option.some_bind]

/-! ## Tree traversal helpers -/

mutual

/-- All nodes of a page tree, the node itself first (the traversal order
used by every `def traverse(node)` / `def collect_nodes(node)` walker in
the repository). -/
def allNodes : PyNode → List PyNode
  | .mk url title adf hp ch cc ph ls children =>
    PyNode.mk url title adf hp ch cc ph ls children :: allNodesList children

def allNodesList : List PyNode → List PyNode
  | [] => []
  | n :: ns => allNodes n ++ allNodesList ns

end

mutual

/-- `collect_nodes` of `AssignmentExtractor.extract_all_assignments`:
keep (in preorder) every node whose `content_changed` flag is set, and
always recurse into the children. -/
def collectNodes : PyNode → List PyNode
  | .mk url title adf hp ch cc ph ls children =>
    (if cc then [PyNode.mk url title adf hp ch cc ph ls children] else [])
      ++ collectNodesList children

def collectNodesList : List PyNode → List PyNode
  | [] => []
  | n :: ns => collectNodes n ++ collectNodesList ns

end

/-- Python dict assignment `hash_map[url] = hash`: replace in place when
the key exists, else append. -/
def upsertStr (m : List (String × String)) (k v : String) : List (String × String) :=
  if (m.find? (fun e => e.1 = k)).isSome then
    m.map (fun e => if e.1 = k then (k, v) else e)
  else m ++ [(k, v)]

mutual

/-- `DbHelpers.extract_hashes_from_tree`'s `traverse`, with the hash map
threaded: record `url ↦ content_hash` when the node's `content_hash` is
truthy (present and non-empty), then walk the children. -/
def extractHashesNode : PyNode → List (String × String) → List (String × String)
  | .mk url _ _ _ ch _ _ _ children, m =>
    let m1 :=
      match ch with
      | some h => if h ≠ "" then upsertStr m url h else m
      | none => m
    extractHashesList children m1

def extractHashesList : List PyNode → List (String × String) → List (String × String)
  | [], m => m
  | n :: ns, m => extractHashesList ns (extractHashesNode n m)

end

/-- `DbHelpers.extract_hashes_from_tree`. -/
def extract_hashes_from_tree (t : PyNode) : List (String × String) :=
  extractHashesNode t []

/-- The truthiness test `node.get("content_hash")` applies to the hash
field. -/
def hashTruthy (n : PyNode) : Bool :=
  match n.content_hash with
  | some h => h ≠ ""
  | none => false

/-- **C10.** Deserialising a serialised page tree
(`Node.from_dict(Node.to_dict(t))`) succeeds and reconstructs a tree
equal to `t` at every node on all persisted fields — url, title,
assignment_data_found, html_path, content_hash, content_changed,
previous_hash, last_scraped — and on the children structure. -/
theorem claim_C10_serialisation_roundtrip :
    ∀ n : PyNode, nodeFromDict (nodeToDict n) = some n := by
  intro n
  induction n using PyNode.inductionOn with
  | step url title adf hp ch cc ph ls children ih =>
    have hch := nodesFromDict_of_pointwise children ih
    have g1 : ∀ cj, jGet (nodeFields url title adf hp ch cc ph ls cj) "url"
        = some (JVal.str url) := fun cj => rfl
    have g2 : ∀ cj, jGet (nodeFields url title adf hp ch cc ph ls cj) "title"
        = some (JVal.str title) := fun cj => rfl
    have g3 : ∀ cj, jGet (nodeFields url title adf hp ch cc ph ls cj) "assignment_data_found"
        = some (JVal.bool adf) := fun cj => rfl
    have g4 : ∀ cj, jGet (nodeFields url title adf hp ch cc ph ls cj) "html_path"
        = some (optJStr hp) := fun cj => rfl
    have g5 : ∀ cj, jGet (nodeFields url title adf hp ch cc ph ls cj) "content_hash"
        = some (optJStr ch) := fun cj => rfl
    have g6 : ∀ cj, jGet (nodeFields url title adf hp ch cc ph ls cj) "content_changed"
        = some (JVal.bool cc) := fun cj => rfl
    have g7 : ∀ cj, jGet (nodeFields url title adf hp ch cc ph ls cj) "previous_hash"
        = some (optJStr ph) := fun cj => rfl
    have g8 : ∀ cj, jGet (nodeFields url title adf hp ch cc ph ls cj) "last_scraped"
        = some (optJStr ls) := fun cj => rfl
    have g9 : ∀ cj, jGet (nodeFields url title adf hp ch cc ph ls cj) "children"
        = some cj := fun cj => rfl
    have hpre := g9 (JVal.arr (nodesToDict children))
    simp only [nodeToDict, nodeFromDict, g1, g2, g3, g4, g5, g6, g7, g8,
      jStr?, jStrD, jBoolD, jStrOpt_optJStr, Option.bind_eq_bind,
      Option.some_bind]
    split
    · rename_i harm
      rw [hpre] at harm
      cases harm
    · rename_i elems harm
      rw [hpre] at harm
      obtain rfl : nodesToDict children = elems := by
        injection harm with h'
        injection h'
      rw [hch]
      rfl
    · rename_i val harm hne
      rw [hpre] at hne
      obtain rfl : val = JVal.arr (nodesToDict children) := by
        injection hne with h'
        exact h'.symm
      exact absurd rfl (harm (nodesToDict children))

/-! ## Hash-map lemmas for `extract_hashes_from_tree` -/

theorem lookupStr_cons (e : String × String) (rest : List (String × String))
    (u : String) :
    lookupStr (e :: rest) u = if e.1 = u then some e.2 else lookupStr rest u := by
  by_cases he : e.1 = u
  · rw [if_pos he]
    simp only [lookupStr]
    rw [List.find?_cons_of_pos _ (by simp [he])]
    rfl
  · rw [if_neg he]
    simp only [lookupStr]
    rw [List.find?_cons_of_neg _ (by simp [he])]

theorem lookupStr_append_none {u : String} (l : List (String × String)) :
    ∀ {m : List (String × String)}, lookupStr m u = none →
      lookupStr (m ++ l) u = lookupStr l u := by
  intro m
  induction m with
  | nil => intro _; simp
  | cons e rest ih =>
    intro h
    rw [lookupStr_cons] at h
    rw [List.cons_append, lookupStr_cons]
    by_cases he : e.1 = u
    · rw [if_pos he] at h; cases h
    · rw [if_neg he] at h ⊢
      exact ih h

theorem lookupStr_map_upsert {k u v : String} (hk : k ≠ u) :
    ∀ m : List (String × String),
      lookupStr (m.map (fun e => if e.1 = k then (k, v) else e)) u = lookupStr m u := by
  intro m
  induction m with
  | nil => simp
  | cons e rest ih =>
    simp only [List.map_cons]
    by_cases he : e.1 = k
    · rw [if_pos he, lookupStr_cons, lookupStr_cons]
      have hne : ¬ e.1 = u := by rw [he]; exact hk
      rw [if_neg hk, if_neg hne]
      exact ih
    · rw [if_neg he, lookupStr_cons, lookupStr_cons]
      by_cases hu : e.1 = u
      · rw [if_pos hu, if_pos hu]
      · rw [if_neg hu, if_neg hu]
        exact ih

theorem upsertStr_lookup_none {m : List (String × String)} {k u v : String}
    (h : lookupStr m u = none) (hk : k ≠ u) :
    lookupStr (upsertStr m k v) u = none := by
  unfold upsertStr
  by_cases hf : ((m.find? (fun e => e.1 = k)).isSome : Prop)
  · rw [if_pos hf, lookupStr_map_upsert hk]
    exact h
  · rw [if_neg hf, lookupStr_append_none _ h, lookupStr_cons]
    rw [if_neg hk]
    rfl

theorem allNodes_cons_sub {c : PyNode} {cs : List PyNode} (hc : c ∈ cs) :
    ∀ x ∈ allNodes c, x ∈ allNodesList cs := by
  induction cs with
  | nil => cases hc
  | cons c0 rest ih =>
    intro x hx
    rcases List.mem_cons.mp hc with rfl | hc'
    · simp only [allNodesList]
      exact List.mem_append.mpr (Or.inl hx)
    · simp only [allNodesList]
      exact List.mem_append.mpr (Or.inr (ih hc' x hx))

theorem extractHashesNode_none :
    ∀ (t : PyNode) (m : List (String × String)) (u : String),
      (∀ n ∈ allNodes t, n.url = u → hashTruthy n = false) →
      lookupStr m u = none → lookupStr (extractHashesNode t m) u = none := by
  intro t
  induction t using PyNode.inductionOn with
  | step url title adf hp ch cc ph ls children ih =>
    intro m u hall hm
    have hlist : ∀ (ns : List PyNode),
        (∀ c ∈ ns, ∀ m', (∀ n ∈ allNodes c, n.url = u → hashTruthy n = false) →
          lookupStr m' u = none → lookupStr (extractHashesNode c m') u = none) →
        (∀ c ∈ ns, ∀ n ∈ allNodes c, n.url = u → hashTruthy n = false) →
        ∀ m', lookupStr m' u = none → lookupStr (extractHashesList ns m') u = none := by
      intro ns
      induction ns with
      | nil =>
        intro _ _ m' hm'
        simpa [extractHashesList] using hm'
      | cons c0 rest ihl =>
        intro hpt hallns m' hm'
        simp only [extractHashesList]
        refine ihl (fun c hc => hpt c (List.mem_cons_of_mem _ hc))
          (fun c hc => hallns c (List.mem_cons_of_mem _ hc)) _ ?_
        exact hpt c0 (List.mem_cons_self _ _) m'
          (hallns c0 (List.mem_cons_self _ _)) hm'
    simp only [extractHashesNode]
    refine hlist children
      (fun c hc m' hc' hm' => ih c hc m' u hc' hm')
      (fun c hc n hn hnu => hall n ?_ hnu) _ ?_
    · simp only [allNodes]
      exact List.mem_cons_of_mem _ (allNodes_cons_sub hc n hn)
    · cases hch : ch with
      | none => exact hm
      | some h0 =>
        show lookupStr (if h0 ≠ "" then upsertStr m url h0 else m) u = none
        by_cases h0e : h0 ≠ ""
        · rw [if_pos h0e]
          refine upsertStr_lookup_none hm ?_
          intro hku
          have hself : PyNode.mk url title adf hp ch cc ph ls children ∈
              allNodes (PyNode.mk url title adf hp ch cc ph ls children) := by
            simp [allNodes]
          have := hall _ hself (by simpa [PyNode.url] using hku)
          rw [hashTruthy] at this
          simp only [PyNode.content_hash, hch] at this
          exact h0e (by simpa using this)
        · rw [if_neg h0e]
          exact hm

/-! ## Witness data for the crawl claims -/

def envW : CrawlEnv :=
  { fetch := fun _ => none
  , linkOracle := fun _ _ => none
  , saveOk := fun _ => true
  , hashFn := fun html u => html ++ u
  , savePath := fun u => "js/" ++ u
  , now := "t"
  , prevHashes := [] }

/-! ## Claims C5, C7, C9 (crawler invariants) and C8 (URL resolution) -/

/-- **C5.** The exposed change helper returns true iff the previous hash
is absent or differs from the current hash, and every `PageNode`
produced by a crawl satisfies
`content_changed ⇔ (previous_hash = ∅ ∨ previous_hash ≠ content_hash)`. -/
theorem claim_C5_change_flag :
    (∀ cur prev, has_content_changed cur prev = true ↔
        (prev = none ∨ prev ≠ some cur))
    ∧ (∀ env root n, n ∈ crawl env root →
        (n.content_changed = true ↔
          (n.previous_hash = none ∨ n.previous_hash ≠ n.content_hash))) := by
  constructor
  · intro cur prev
    cases prev with
    | none => simp [has_content_changed]
    | some p =>
      simp only [has_content_changed, bne_iff_ne, ne_eq, Option.some.injEq,
        false_or, reduceCtorEq]
      exact ⟨fun h he => h he.symm, fun h he => h he.symm⟩
  · intro env root n hn
    obtain ⟨url, d, vis, he⟩ := mem_crawlLoop env MAX_DEPTH _ _ n hn
    rw [he]
    exact processOne_changed_inv env url d vis

/-- Witness for C5 at a concrete input: a crawl of `envW`, in which the
root fetch times out. -/
theorem claim_C5_change_flag_witness :
    (has_content_changed "a" (some "b") = true ↔
      ((some "b" : Option String) = none ∨ (some "b" : Option String) ≠ some "a"))
    ∧ ((defaultCrawledNode "http://r/" 0).content_changed = true ↔
        ((defaultCrawledNode "http://r/" 0).previous_hash = none ∨
          (defaultCrawledNode "http://r/" 0).previous_hash ≠
            (defaultCrawledNode "http://r/" 0).content_hash)) :=
  ⟨claim_C5_change_flag.1 "a" (some "b"),
   claim_C5_change_flag.2 envW "http://r/" (defaultCrawledNode "http://r/" 0)
     (by decide)⟩

/-- **C7.** A link is added to the frontier iff its URL is unseen and
its depth (`current_depth + 1`) is strictly below `MAX_DEPTH = 3`;
consequently no produced node sits deeper than `MAX_DEPTH` and no URL
appears twice in the produced tree. -/
theorem claim_C7_frontier :
    (∀ d links visited l,
        l ∈ (enqueueLinks d links visited).1.map Prod.fst ↔
          (l ∈ links ∧ l ∉ visited ∧ d + 1 < MAX_DEPTH))
    ∧ (∀ env root n, n ∈ crawl env root → n.depth ≤ MAX_DEPTH)
    ∧ (∀ env root, ((crawl env root).map CrawledNode.url).Nodup) := by
  refine ⟨fun d links visited l => enqueueLinks_mem_iff d links visited l,
    fun env root n hn => ?_, fun env root => ?_⟩
  · exact crawlLoop_depth env MAX_DEPTH [(root, 0)] [root]
      (by
        intro e he
        rw [List.mem_singleton] at he
        subst he
        exact Nat.zero_le _) n hn
  · exact (crawlLoop_nodup env MAX_DEPTH [(root, 0)] [root]
      (by simp) (by simp)).1

/-- Witness for C7 at concrete inputs. -/
theorem claim_C7_frontier_witness :
    ("http://q/" ∈ (enqueueLinks 0 ["http://q/"] ["http://r/"]).1.map Prod.fst)
    ∧ (defaultCrawledNode "http://r/" 0).depth ≤ MAX_DEPTH
    ∧ ((crawl envW "http://r/").map CrawledNode.url).Nodup :=
  ⟨(claim_C7_frontier.1 0 ["http://q/"] ["http://r/"] "http://q/").mpr (by decide),
   claim_C7_frontier.2.1 envW "http://r/" (defaultCrawledNode "http://r/" 0) (by decide),
   claim_C7_frontier.2.2 envW "http://r/"⟩

/-- **C9.** A per-page fetch error still yields a node (with no
`html_path`, no `content_hash`, and `content_changed = true`) while the
rest of the crawl proceeds; a node with no truthy `content_hash` is
omitted from the next sync's previous-hash map; and any URL absent from
that map is flagged `content_changed = true` again. -/
theorem claim_C9_page_errors :
    (∀ env root n, n ∈ crawl env root → env.fetch n.url = none →
        (n.html_path = none ∧ n.content_changed = true ∧ n.content_hash = none))
    ∧ (∀ (t : PyNode) (u : String),
        (∀ x ∈ allNodes t, x.url = u → hashTruthy x = false) →
        lookupStr (extract_hashes_from_tree t) u = none)
    ∧ (∀ env root n, n ∈ crawl env root →
        lookupStr env.prevHashes n.url = none → n.content_changed = true) := by
  refine ⟨fun env root n hn hf => ?_, fun t u hall => ?_, fun env root n hn hp => ?_⟩
  · obtain ⟨url, d, vis, he⟩ := mem_crawlLoop env MAX_DEPTH _ _ n hn
    have hu : n.url = url := by rw [he]; exact processOne_url env url d vis
    rw [hu] at hf
    rw [he, processOne_fetch_none env url d vis hf]
    exact ⟨rfl, rfl, rfl⟩
  · exact extractHashesNode_none t [] u hall rfl
  · obtain ⟨url, d, vis, he⟩ := mem_crawlLoop env MAX_DEPTH _ _ n hn
    have hu : n.url = url := by rw [he]; exact processOne_url env url d vis
    rw [hu] at hp
    rw [he]
    exact processOne_prev_none env url d vis hp

/-- Witness for C9: in the crawl of `envW` every fetch times out; the
resulting bare node is omitted from the hash map of the tree it would be
persisted in, and its URL missing from a previous-hash map forces
`content_changed = true`. -/
theorem claim_C9_page_errors_witness :
    ((defaultCrawledNode "http://r/" 0).html_path = none
      ∧ (defaultCrawledNode "http://r/" 0).content_changed = true
      ∧ (defaultCrawledNode "http://r/" 0).content_hash = none)
    ∧ lookupStr (extract_hashes_from_tree
        (PyNode.mk "http://r/" "" false none none true none none [])) "http://r/" = none
    ∧ (defaultCrawledNode "http://r/" 0).content_changed = true :=
  ⟨claim_C9_page_errors.1 envW "http://r/" (defaultCrawledNode "http://r/" 0)
      (by decide) (by decide),
   claim_C9_page_errors.2.1 _ _ (by decide),
   claim_C9_page_errors.2.2 envW "http://r/" (defaultCrawledNode "http://r/" 0)
      (by decide) (by decide)⟩

/-- **C8 (amended).** For every raw href, the crawler strips whitespace
and the fragment, returns absolute http(s) URLs unchanged (query
included), prefixes `//host/...` links with the base URL's scheme, and
joins every other link against the base URL with `urljoin`; a resolved
link is dropped iff it is the empty string.  (Contrary to the original
claim, a trailing `/` is never stripped and links with non-http(s)
schemes are not dropped — see the counterexample.) -/
theorem claim_C8_url_resolution :
    (∀ base l, l ≠ "" →
        (pyStartsWith (defrag l) "http://" || pyStartsWith (defrag l) "https://") = true →
        resolve_url base l = defrag l)
    ∧ (∀ base l, l ≠ "" →
        (pyStartsWith (defrag l) "http://" || pyStartsWith (defrag l) "https://") = false →
        pyStartsWith (defrag l) "//" = true →
        resolve_url base l = urlScheme base ++ ":" ++ defrag l)
    ∧ (∀ base l, l ≠ "" →
        (pyStartsWith (defrag l) "http://" || pyStartsWith (defrag l) "https://") = false →
        pyStartsWith (defrag l) "//" = false →
        resolve_url base l = urljoin base (defrag l))
    ∧ (∀ cur raws l', l' ∈ resolveLinks cur raws ↔
        ((∃ r ∈ raws, resolve_url cur r = l') ∧ l' ≠ "")) := by
  refine ⟨fun base l hl h1 => ?_, fun base l hl h1 h2 => ?_,
    fun base l hl h1 h2 => ?_, fun cur raws l' => ?_⟩
  · rw [resolve_url, if_neg hl, if_pos h1]
  · simp [resolve_url, hl, h1, h2]
  · simp [resolve_url, hl, h1, h2]
  · simp only [resolveLinks, List.mem_filter, List.mem_map, ne_eq,
      decide_not, Bool.not_eq_true', decide_eq_false_iff_not]

/-- Witness for the amended C8 at concrete inputs. -/
theorem claim_C8_url_resolution_witness :
    resolve_url "http://r/" " https://x.io/a?b=1#frag" = defrag " https://x.io/a?b=1#frag"
    ∧ resolve_url "http://r/" "//h/p" = urlScheme "http://r/" ++ ":" ++ defrag "//h/p"
    ∧ resolve_url "http://r/" "d.html" = urljoin "http://r/" (defrag "d.html")
    ∧ ("mailto:bob" ∈ resolveLinks "http://r/" ["mailto:bob", ""]) :=
  ⟨claim_C8_url_resolution.1 "http://r/" " https://x.io/a?b=1#frag"
      (by decide) (by decide),
   claim_C8_url_resolution.2.1 "http://r/" "//h/p" (by decide) (by decide) (by decide),
   claim_C8_url_resolution.2.2.1 "http://r/" "d.html" (by decide) (by decide) (by decide),
   (claim_C8_url_resolution.2.2.2 "http://r/" ["mailto:bob", ""] "mailto:bob").mpr
     ⟨⟨"mailto:bob", by decide, by decide⟩, by decide⟩⟩

/-- Counterexample to C8 as stated: a `mailto:` link is *not* dropped
(it is resolved to itself and kept by `get_relevant_links`), and a
trailing `/` on an absolute link is *not* stripped. -/
theorem claim_C8_counterexample :
    resolve_url "https://a.com/p" "mailto:bob" = "mailto:bob"
    ∧ resolveLinks "https://a.com/p" ["mailto:bob"] = ["mailto:bob"]
    ∧ resolve_url "https://a.com/p" "https://b.com/q/" = "https://b.com/q/" :=
  ⟨by decide, by decide, by decide⟩

/-! ## Stage A — the assignment extractor (`services/assignment_extractor.py`)

`extract_all_assignments` collects the `content_changed` pages of the
stored tree in preorder, fetches the enclosing course's assignments
(title and description) *once*, and then, page by page, downloads the
page's HTML and calls the Extraction Oracle with the page text and that
run-initial context.  Each returned record is applied to the assignments
table by `handle_assignment_database_update`:

* `repeated = true`: `find_existing_assignment` looks up the first row
  whose title matches exactly (the query is **not** filtered by course);
  if found, the page's blob path is appended to `source_page_paths`
  unless already present; if not found, a new row is created;
* `repeated = false`: a new row is created.

The blob store is a function `storage : path → Option html` (`none`
models a failed download; a page whose node has no `html_path` or whose
download fails is skipped).  The oracle is a function of the page HTML
and the pretty-printed context.  The second component of the run result
is ghost instrumentation recording each oracle call made (page URL and
the context passed), used by the ordering claims. -/

structure AssignRow where
  id : Nat
  course_id : String
  title : String
  description : String
  content_hash : Option String
  source_url : Option String
  source_page_paths : List String
  job_sync_id : String
  chosen_due_date_id : Option Nat
deriving DecidableEq, Repr

structure AssignDB where
  rows : List AssignRow
  nextId : Nat
deriving DecidableEq, Repr

/-- A record of the Extraction Oracle (the `Assignment` pydantic
model). -/
structure ExtractRecord where
  title : String
  description : String
  repeated : Bool
deriving DecidableEq, Repr

/-- An oracle invocation: the page's URL and the `previous_assignments`
context passed to it. -/
structure OracleCall where
  url : String
  ctx : List (String × String)
deriving DecidableEq, Repr

/-- The `(title, description)` context rows
(`select("title, description").eq("course_id", course_id)`), in table
order. -/
def courseContext (db : AssignDB) (course_id : String) : List (String × String) :=
  (db.rows.filter (fun r => r.course_id = course_id)).map
    (fun r => (r.title, r.description))

/-- `AssignmentExtractor.find_existing_assignment`: the first row whose
title matches exactly; the query carries no course filter. -/
def find_existing_assignment (db : AssignDB) (title : String) : Option AssignRow :=
  db.rows.find? (fun r => r.title = title)

/-- `AssignmentExtractor.create_new_assignment`: insert a fresh row
whose `source_page_paths` is the single page path;
`chosen_due_date_id` is left unset. -/
def create_new_assignment (db : AssignDB) (rec : ExtractRecord)
    (page_hash : Option String) (page_url : Option String)
    (html_path job_sync_id course_id : String) : AssignDB :=
  { rows := db.rows ++
      [{ id := db.nextId, course_id := course_id, title := rec.title
       , description := rec.description, content_hash := page_hash
       , source_url := page_url, source_page_paths := [html_path]
       , job_sync_id := job_sync_id, chosen_due_date_id := none }]
  , nextId := db.nextId + 1 }

/-- `AssignmentExtractor.handle_assignment_database_update`. -/
def handle_assignment_database_update (db : AssignDB) (rec : ExtractRecord)
    (page_hash : Option String) (page_url : Option String)
    (html_path job_sync_id course_id : String) : AssignDB :=
  if rec.repeated then
    match find_existing_assignment db rec.title with
    | some existing =>
      if html_path ∈ existing.source_page_paths then db
      else
        { db with rows := db.rows.map (fun r =>
            if r.id = existing.id then
              { r with source_page_paths := r.source_page_paths ++ [html_path] }
            else r) }
    | none =>
      create_new_assignment db rec page_hash page_url html_path job_sync_id course_id
  else
    create_new_assignment db rec page_hash page_url html_path job_sync_id course_id

/-- Whether the extractor can obtain the page text for a node: the node
carries an `html_path` and the download succeeds (otherwise the
surrounding `try/except` skips the page). -/
def pageLoadable (storage : String → Option String) (node : PyNode) : Bool :=
  match node.html_path with
  | none => false
  | some p => (storage p).isSome

/-- One iteration of the `for node in nodes_to_process` loop: load the
HTML, call the oracle with the given context, and apply each returned
record to the table.  Skipped pages make no oracle call. -/
def processPage (storage : String → Option String)
    (oracle : String → List (String × String) → List ExtractRecord)
    (ctx : List (String × String)) (job_sync_id course_id : String)
    (node : PyNode) (db : AssignDB) : AssignDB × List OracleCall :=
  match node.html_path with
  | none => (db, [])
  | some p =>
    match storage p with
    | none => (db, [])
    | some html =>
      let recs := oracle html ctx
      (recs.foldl (fun d rec =>
          handle_assignment_database_update d rec node.content_hash (some node.url)
            p job_sync_id course_id) db,
       [⟨node.url, ctx⟩])

/-- The loop body of `extract_all_assignments`: thread the table through
`processPage` and accumulate the oracle-call trace. -/
def extractStep (storage : String → Option String)
    (oracle : String → List (String × String) → List ExtractRecord)
    (ctx : List (String × String)) (job_sync_id course_id : String)
    (acc : AssignDB × List OracleCall) (node : PyNode) : AssignDB × List OracleCall :=
  let r := processPage storage oracle ctx job_sync_id course_id node acc.1
  (r.1, acc.2 ++ r.2)

/-- `AssignmentExtractor.extract_all_assignments`. -/
def extract_all_assignments (storage : String → Option String)
    (oracle : String → List (String × String) → List ExtractRecord)
    (tree : PyNode) (job_sync_id course_id : String) (db : AssignDB) :
    AssignDB × List OracleCall :=
  let nodes := collectNodes tree
  let ctx := courseContext db course_id
  nodes.foldl (extractStep storage oracle ctx job_sync_id course_id) (db, [])

/-! ### Claims C6, C4, C3 (extractor behaviour) -/

/-- **C6 (amended).** When the oracle marks a record `repeated`, the
extractor looks up an existing assignment by exact title match — over
the whole assignments table, *not* restricted to the course (see the
counterexample); if a match is found and the page's blob path is not in
its `source_page_paths`, the path is appended (otherwise the row is
unchanged); if no title matches anywhere, it falls through and creates a
new assignment, as it also does for `repeated = false` records. -/
theorem claim_C6_repeated_lookup :
    (∀ db title row, find_existing_assignment db title = some row →
        row ∈ db.rows ∧ row.title = title)
    ∧ (∀ db title, find_existing_assignment db title = none ↔
        ∀ r ∈ db.rows, r.title ≠ title)
    ∧ (∀ db rec ph pu p js c, rec.repeated = true →
        (∀ row, find_existing_assignment db rec.title = some row →
          (p ∈ row.source_page_paths →
            handle_assignment_database_update db rec ph pu p js c = db)
          ∧ (p ∉ row.source_page_paths →
            (handle_assignment_database_update db rec ph pu p js c).rows =
              db.rows.map (fun r =>
                if r.id = row.id then
                  { r with source_page_paths := r.source_page_paths ++ [p] }
                else r)))
        ∧ (find_existing_assignment db rec.title = none →
            handle_assignment_database_update db rec ph pu p js c =
              create_new_assignment db rec ph pu p js c))
    ∧ (∀ db rec ph pu p js c, rec.repeated = false →
        handle_assignment_database_update db rec ph pu p js c =
          create_new_assignment db rec ph pu p js c) := by
  refine ⟨fun db title row h => ?_, fun db title => ?_,
    fun db rec ph pu p js c hrep => ⟨fun row hrow => ⟨fun hmem => ?_, fun hmem => ?_⟩,
      fun hnone => ?_⟩,
    fun db rec ph pu p js c hrep => ?_⟩
  · exact ⟨List.mem_of_find?_eq_some h,
      by simpa using List.find?_some h⟩
  · unfold find_existing_assignment
    rw [List.find?_eq_none]
    constructor
    · intro h r hr
      have := h r hr
      simpa using this
    · intro h r hr
      simpa using h r hr
  · unfold handle_assignment_database_update
    rw [if_pos hrep, hrow]
    exact if_pos hmem
  · unfold handle_assignment_database_update
    rw [if_pos hrep, hrow]
    exact congrArg AssignDB.rows (if_neg hmem)
  · unfold handle_assignment_database_update
    rw [if_pos hrep, hnone]
  · unfold handle_assignment_database_update
    rw [if_neg (by simp [hrep])]

/-- Counterexample to C6 as stated: the lookup is not course-scoped.  A
`repeated` record for course `c1` matches — and mutates — the only row
in the table, which belongs to course `OTHER`; no assignment is created
for `c1`. -/
theorem claim_C6_counterexample :
    (handle_assignment_database_update
        ⟨[⟨0, "OTHER", "HW1", "d0", none, none, ["x"], "js0", none⟩], 1⟩
        ⟨"HW1", "d", true⟩ none none "p.html" "js" "c1").rows =
      [⟨0, "OTHER", "HW1", "d0", none, none, ["x", "p.html"], "js0", none⟩] := by
  decide

/-- Witness for the amended C6 at concrete inputs. -/
theorem claim_C6_repeated_lookup_witness :
    ((⟨0, "OTHER", "HW1", "d0", none, none, ["x"], "js0", none⟩ : AssignRow) ∈
        (⟨[⟨0, "OTHER", "HW1", "d0", none, none, ["x"], "js0", none⟩], 1⟩ : AssignDB).rows
      ∧ (⟨0, "OTHER", "HW1", "d0", none, none, ["x"], "js0", none⟩ : AssignRow).title = "HW1")
    ∧ (handle_assignment_database_update
        ⟨[⟨0, "OTHER", "HW1", "d0", none, none, ["x"], "js0", none⟩], 1⟩
        ⟨"HW1", "d", true⟩ none none "x" "js" "c1" =
          ⟨[⟨0, "OTHER", "HW1", "d0", none, none, ["x"], "js0", none⟩], 1⟩)
    ∧ (handle_assignment_database_update ⟨[], 0⟩ ⟨"HW2", "d", false⟩ none none "p" "js" "c1" =
        create_new_assignment ⟨[], 0⟩ ⟨"HW2", "d", false⟩ none none "p" "js" "c1") :=
  ⟨claim_C6_repeated_lookup.1
      ⟨[⟨0, "OTHER", "HW1", "d0", none, none, ["x"], "js0", none⟩], 1⟩ "HW1"
      ⟨0, "OTHER", "HW1", "d0", none, none, ["x"], "js0", none⟩ (by decide),
   ((claim_C6_repeated_lookup.2.2.1
      ⟨[⟨0, "OTHER", "HW1", "d0", none, none, ["x"], "js0", none⟩], 1⟩
      ⟨"HW1", "d", true⟩ none none "x" "js" "c1" rfl).1
      ⟨0, "OTHER", "HW1", "d0", none, none, ["x"], "js0", none⟩ (by decide)).1 (by decide),
   claim_C6_repeated_lookup.2.2.2 ⟨[], 0⟩ ⟨"HW2", "d", false⟩ none none "p" "js" "c1" rfl⟩

theorem extractFold_trace (storage : String → Option String)
    (oracle : String → List (String × String) → List ExtractRecord)
    (ctx : List (String × String)) (job_sync_id course_id : String) :
    ∀ (nodes : List PyNode) (db : AssignDB) (tr : List OracleCall),
    (nodes.foldl (extractStep storage oracle ctx job_sync_id course_id) (db, tr)).2
      = tr ++ (nodes.filter (pageLoadable storage)).map (fun n => ⟨n.url, ctx⟩) := by
  intro nodes
  induction nodes with
  | nil => intro db tr; simp
  | cons n rest ih =>
    intro db tr
    have happ : extractStep storage oracle ctx job_sync_id course_id (db, tr) n
        = ((processPage storage oracle ctx job_sync_id course_id n db).1,
           tr ++ (processPage storage oracle ctx job_sync_id course_id n db).2) := rfl
    rw [List.foldl_cons, happ,
      ih (processPage storage oracle ctx job_sync_id course_id n db).1
        (tr ++ (processPage storage oracle ctx job_sync_id course_id n db).2)]
    cases hp : n.html_path with
    | none =>
      have hload : pageLoadable storage n = false := by
        simp [pageLoadable, hp]
      have hpp : (processPage storage oracle ctx job_sync_id course_id n db).2 = [] := by
        simp [processPage, hp]
      rw [hpp]
      simp [List.filter_cons, hload]
    | some p =>
      cases hs : storage p with
      | none =>
        have hload : pageLoadable storage n = false := by
          simp [pageLoadable, hp, hs]
        have hpp : (processPage storage oracle ctx job_sync_id course_id n db).2 = [] := by
          simp [processPage, hp, hs]
        rw [hpp]
        simp [List.filter_cons, hload]
      | some html =>
        have hload : pageLoadable storage n = true := by
          simp [pageLoadable, hp, hs]
        have hpp : (processPage storage oracle ctx job_sync_id course_id n db).2
            = [⟨n.url, ctx⟩] := by
          simp [processPage, hp, hs]
        rw [hpp]
        simp [List.filter_cons, hload]

/-- **C4 (amended).** Within one extractor run, the changed pages are
processed in tree-traversal (preorder) order, but the
`priorAssignments` context passed to the Extraction Oracle is the
course's assignment list as fetched *once at the start of the run*: the
oracle calls are exactly the loadable changed pages in preorder, every
one receiving the same run-initial context — so the context for page N
does **not** include assignments created while processing pages 1…N-1
of the same run (dedup against same-run creations happens only through
the `repeated`-flag database lookup). -/
theorem claim_C4_run_context (storage : String → Option String)
    (oracle : String → List (String × String) → List ExtractRecord)
    (tree : PyNode) (job_sync_id course_id : String) (db : AssignDB) :
    (extract_all_assignments storage oracle tree job_sync_id course_id db).2
      = ((collectNodes tree).filter (pageLoadable storage)).map
          (fun n => ⟨n.url, courseContext db course_id⟩) := by
  unfold extract_all_assignments
  rw [extractFold_trace]
  simp

/-- Witness data: a two-page tree (both pages changed), an identity blob
store, and a consistent honest oracle that reports `HW1` on every page
and flags it repeated exactly when `HW1` is in the context it is
given. -/
def treeW4 : PyNode :=
  PyNode.mk "u1" "" false (some "p1") (some "h1") true none none
    [PyNode.mk "u2" "" false (some "p2") (some "h2") true none none []]

def rootOnlyW4 : PyNode :=
  PyNode.mk "u1" "" false (some "p1") (some "h1") true none none []

def storW4 : String → Option String := fun p => some p

def orW4 : String → List (String × String) → List ExtractRecord :=
  fun _ ctx => [⟨"HW1", "d", decide ("HW1" ∈ ctx.map Prod.fst)⟩]

def dbEmpty : AssignDB := ⟨[], 0⟩

/-- Counterexample to C4 as stated: in the run over `treeW4`, the
second page's oracle call receives the empty context even though
processing the first page alone already creates assignment `HW1`. -/
theorem claim_C4_counterexample :
    ((extract_all_assignments storW4 orW4 treeW4 "js" "c1" dbEmpty).2
        = [⟨"u1", []⟩, ⟨"u2", []⟩])
    ∧ ((extract_all_assignments storW4 orW4 rootOnlyW4 "js" "c1" dbEmpty).1.rows.map
        AssignRow.title = ["HW1"]) := by
  exact ⟨by decide, by decide⟩

/-- Decidable stability condition for an extractor run: every record
the oracle emits — for the loadable changed pages, with the run-initial
context — is flagged `repeated` and its exact-title first match in the
table already lists that page's blob path. -/
def extractorRunStable (storage : String → Option String)
    (oracle : String → List (String × String) → List ExtractRecord)
    (tree : PyNode) (course_id : String) (db : AssignDB) : Bool :=
  (collectNodes tree).all (fun node =>
    match node.html_path with
    | none => true
    | some p =>
      match storage p with
      | none => true
      | some html =>
        (oracle html (courseContext db course_id)).all (fun rec =>
          rec.repeated &&
          match find_existing_assignment db rec.title with
          | some row => decide (p ∈ row.source_page_paths)
          | none => false))

theorem handleFold_stable (job_sync_id course_id : String) (p : String)
    (ph pu : Option String) :
    ∀ (recs : List ExtractRecord) (db : AssignDB),
    (∀ rec ∈ recs, rec.repeated = true ∧
      ∃ row, find_existing_assignment db rec.title = some row ∧
        p ∈ row.source_page_paths) →
    recs.foldl (fun d rec =>
      handle_assignment_database_update d rec ph pu p job_sync_id course_id) db = db := by
  intro recs
  induction recs with
  | nil => intro db _; rfl
  | cons rec rest ih =>
    intro db hall
    obtain ⟨hrep, row, hrow, hmem⟩ := hall rec (List.mem_cons_self _ _)
    have hstep : handle_assignment_database_update db rec ph pu p job_sync_id course_id
        = db := by
      unfold handle_assignment_database_update
      rw [if_pos hrep, hrow]
      exact if_pos hmem
    rw [List.foldl_cons, hstep]
    exact ih db (fun r hr => hall r (List.mem_cons_of_mem _ hr))

/-- **C3 (amended).** Re-running Stage A leaves the canonical assignment
set unchanged **provided** every record the re-run's oracle emits is
flagged `repeated` and its exact-title first match already lists that
page's blob path (`extractorRunStable`).  Without that proviso the claim
fails: because the oracle context is fetched once per run and the title
lookup ignores the course, a title appearing on two pages of the same
run is created twice, and the second run then appends a
`source_page_paths` entry — see the counterexample. -/
theorem claim_C3_idempotence (storage : String → Option String)
    (oracle : String → List (String × String) → List ExtractRecord)
    (tree : PyNode) (job_sync_id course_id : String) (db : AssignDB)
    (h : extractorRunStable storage oracle tree course_id db = true) :
    (extract_all_assignments storage oracle tree job_sync_id course_id db).1 = db := by
  unfold extract_all_assignments
  unfold extractorRunStable at h
  rw [List.all_eq_true] at h
  have main : ∀ (nodes : List PyNode) (tr : List OracleCall),
      (∀ node ∈ nodes,
        (match node.html_path with
        | none => true
        | some p =>
          match storage p with
          | none => true
          | some html =>
            (oracle html (courseContext db course_id)).all (fun rec =>
              rec.repeated &&
              match find_existing_assignment db rec.title with
              | some row => decide (p ∈ row.source_page_paths)
              | none => false)) = true) →
      (nodes.foldl (extractStep storage oracle (courseContext db course_id)
        job_sync_id course_id) (db, tr)).1 = db := by
    intro nodes
    induction nodes with
    | nil => intro tr _; rfl
    | cons n rest ih =>
      intro tr hall
      rw [List.foldl_cons]
      have hn := hall n (List.mem_cons_self _ _)
      have hstep : (processPage storage oracle (courseContext db course_id)
          job_sync_id course_id n db).1 = db := by
        cases hp : n.html_path with
        | none => simp [processPage, hp]
        | some p =>
          cases hs : storage p with
          | none => simp [processPage, hp, hs]
          | some html =>
            simp only [processPage, hp, hs]
            simp only [hp, hs] at hn
            rw [List.all_eq_true] at hn
            refine handleFold_stable job_sync_id course_id p n.content_hash
              (some n.url) _ db ?_
            intro rec hrec
            have := hn rec hrec
            rw [Bool.and_eq_true] at this
            refine ⟨this.1, ?_⟩
            rcases hfind : find_existing_assignment db rec.title with _ | row
            · rw [hfind] at this
              simp at this
            · rw [hfind] at this
              exact ⟨row, rfl, by simpa using this.2⟩
      have happ : extractStep storage oracle (courseContext db course_id)
          job_sync_id course_id (db, tr) n
          = (db, tr ++ (processPage storage oracle (courseContext db course_id)
              job_sync_id course_id n db).2) := by
        show ((processPage storage oracle (courseContext db course_id)
            job_sync_id course_id n db).1,
          tr ++ (processPage storage oracle (courseContext db course_id)
            job_sync_id course_id n db).2) = _
        rw [hstep]
      rw [happ]
      exact ih _ (fun node hn' => hall node (List.mem_cons_of_mem _ hn'))
  exact main (collectNodes tree) [] (fun node hn => h node hn)

/-- Counterexample to C3 as stated: over `treeW4` (spec scenario S1:
`HW1` appears on two pages) a first run from an empty table creates two
rows titled `HW1`, and the *second* run — same tree, the canonical set
as the first run left it — appends `p2` to the first row's
`source_page_paths`, changing the canonical set. -/
theorem claim_C3_counterexample :
    ((extract_all_assignments storW4 orW4 treeW4 "js1" "c1" dbEmpty).1.rows.map
        (fun r => (r.title, r.source_page_paths))
      = [("HW1", ["p1"]), ("HW1", ["p2"])])
    ∧ ((extract_all_assignments storW4 orW4 treeW4 "js2" "c1"
          (extract_all_assignments storW4 orW4 treeW4 "js1" "c1" dbEmpty).1).1.rows.map
        (fun r => (r.title, r.source_page_paths))
      = [("HW1", ["p1", "p2"]), ("HW1", ["p2"])]) :=
  ⟨by decide, by decide⟩

/-- Witness for the amended C3: with a table in which `HW1` already
lists both pages' paths, the honest oracle flags every record repeated
and the run is a no-op. -/
theorem claim_C3_idempotence_witness :
    extractorRunStable storW4 orW4 treeW4 "c1"
      ⟨[⟨0, "c1", "HW1", "d", none, none, ["p1", "p2"], "js0", none⟩], 1⟩ = true
    ∧ (extract_all_assignments storW4 orW4 treeW4 "js" "c1"
        ⟨[⟨0, "c1", "HW1", "d", none, none, ["p1", "p2"], "js0", none⟩], 1⟩).1
      = ⟨[⟨0, "c1", "HW1", "d", none, none, ["p1", "p2"], "js0", none⟩], 1⟩ :=
  ⟨by decide,
   claim_C3_idempotence storW4 orW4 treeW4 "js" "c1"
     ⟨[⟨0, "c1", "HW1", "d", none, none, ["p1", "p2"], "js0", none⟩], 1⟩ (by decide)⟩

/-! ## Stage D — the due-date resolver (`services/due_date_finder.py`)

`find_due_dates` walks the assignments one by one: it loads the text of
each page in the assignment's `source_page_paths` (failed loads are
skipped), returns `None` when there is no text at all, and otherwise
asks the Resolver Oracle for at most one due date
(`extract_single_due_date`; an oracle error or a `null` answer is also
`None`).  `validate_due_dates` keeps the collected results whose
`assignment_id` is known — the date-format branch appends in both cases
— and then, for every assignment without an entry, constructs a
placeholder `AssignmentDueDate(…, date=None, …)`.  The pydantic model,
however, declares `date: str` as a **required** field, so that
construction raises `ValidationError`: `validate_due_dates` returns its
validated list only when every assignment is covered, and otherwise
raises — modelled as `Option`, with `none` for the exception.  The
exception propagates out of `find_due_dates`; the enclosing activity
catches it and returns a failure result without ever calling
`update_assignments_with_due_dates`, so nothing is persisted for the
JobSync.  On the non-raising path, `update_assignments_with_due_dates`
persists a `due_dates` row and sets the assignment's
`chosen_due_date_id` only for entries whose `date` is truthy
(non-empty).

The resolver oracle is a function of the assignment row and the loaded
`(html_path, content)` pages; a successfully parsed oracle answer
always carries a `date` string (the model requires `str`, not
non-emptiness, so it may be `""`).  `confidence` is a float in the
source; the resolver never branches on it, so it is kept opaque as a
`Nat`. -/

structure AssignmentDueDate where
  assignment_id : Nat
  assignment_title : String
  date : String
  date_certain : Bool
  time_certain : Bool
  confidence : Nat
  source_urls : List String
  reasoning : String
deriving DecidableEq, Repr

structure DueRow where
  id : Nat
  assignment_id : Nat
  date : String
  date_certain : Bool
  time_certain : Bool
  title : String
  description : String
  url : Option String
deriving DecidableEq, Repr

/-- The tables Stage D reads and writes. -/
structure StageDState where
  assignments : List AssignRow
  due_dates : List DueRow
  nextDueId : Nat
deriving DecidableEq, Repr

/-- `DueDateFinder.collect_assignment_content`: the
`(html_path, content)` pairs of the loadable source pages, in order. -/
def collect_assignment_content (storage : String → Option String)
    (a : AssignRow) : List (String × String) :=
  a.source_page_paths.filterMap (fun p => (storage p).map (fun h => (p, h)))

/-- `DueDateFinder.extract_single_due_date`: `None` when no source-page
text was collected (`if not formatted_content.strip()`), otherwise the
oracle's answer (`None` covering an oracle error or a `null`
due date). -/
def extract_single_due_date
    (oracleD : AssignRow → List (String × String) → Option AssignmentDueDate)
    (a : AssignRow) (content : List (String × String)) : Option AssignmentDueDate :=
  if content.isEmpty then none else oracleD a content

/-- `DueDateFinder.validate_due_dates`: entries for unknown assignments
are dropped (entries with a truthy and with a falsy `date` are both
appended — the `try` around the date-format branch contains only the
append, which cannot raise); then, for every assignment without an
entry, the source constructs `AssignmentDueDate(…, date=None, …)`
against the required `date: str` field, which raises
`pydantic.ValidationError` — `none` here; everything appended so far is
discarded by the raise. -/
def validate_due_dates (due_dates : List AssignmentDueDate)
    (assignments : List AssignRow) : Option (List AssignmentDueDate) :=
  let validated := due_dates.filter (fun dd =>
    (assignments.map AssignRow.id).contains dd.assignment_id)
  let found := validated.map (fun dd => dd.assignment_id)
  if assignments.all (fun a => found.contains a.id) then some validated
  else none

/-- `DueDateFinder.find_due_dates`: one oracle shot per assignment, then
validation; a `ValidationError` raised there propagates to the
caller. -/
def find_due_dates (storage : String → Option String)
    (oracleD : AssignRow → List (String × String) → Option AssignmentDueDate)
    (assignments : List AssignRow) : Option (List AssignmentDueDate) :=
  let all_due_dates := assignments.filterMap (fun a =>
    extract_single_due_date oracleD a (collect_assignment_content storage a))
  validate_due_dates all_due_dates assignments

/-- One iteration of `update_assignments_with_due_dates`: when the
entry's `date` is truthy (non-empty), insert a `due_dates` row and point
the assignment's `chosen_due_date_id` at it; otherwise do nothing. -/
def updateStep (st : StageDState) (dd : AssignmentDueDate) : StageDState :=
  if dd.date ≠ "" then
    { assignments := st.assignments.map (fun a =>
        if a.id = dd.assignment_id then
          { a with chosen_due_date_id := some st.nextDueId }
        else a)
    , due_dates := st.due_dates ++
        [{ id := st.nextDueId, assignment_id := dd.assignment_id, date := dd.date
         , date_certain := dd.date_certain, time_certain := dd.time_certain
         , title := "Due: " ++ dd.assignment_title, description := dd.reasoning
         , url := dd.source_urls.head? }]
    , nextDueId := st.nextDueId + 1 }
  else st

/-- `DueDateFinder.update_assignments_with_due_dates`. -/
def update_assignments_with_due_dates (due_dates : List AssignmentDueDate)
    (st : StageDState) : StageDState :=
  due_dates.foldl updateStep st

/-- The Stage D slice of the `find_due_dates` activity on the workflow
path (`assignment_ids = None`): resolve every assignment of the course
and apply the updates.  When `find_due_dates` raises, the activity's
`except` returns a failure result and performs no write: the state
comes back unchanged, with `none` in place of the result list. -/
def stageD (storage : String → Option String)
    (oracleD : AssignRow → List (String × String) → Option AssignmentDueDate)
    (course_id : String) (st : StageDState) :
    StageDState × Option (List AssignmentDueDate) :=
  let assignments := st.assignments.filter (fun a => a.course_id = course_id)
  match find_due_dates storage oracleD assignments with
  | none => (st, none)
  | some dds => (update_assignments_with_due_dates dds st, some dds)

/-! ### Stage D lemmas -/

theorem extract_single_some
    {oracleD : AssignRow → List (String × String) → Option AssignmentDueDate}
    {a : AssignRow} {c : List (String × String)} {dd : AssignmentDueDate}
    (h : extract_single_due_date oracleD a c = some dd) : oracleD a c = some dd := by
  unfold extract_single_due_date at h
  by_cases hc : c.isEmpty
  · rw [if_pos hc] at h; cases h
  · rwa [if_neg hc] at h

theorem raw_ids (storage : String → Option String)
    (oracleD : AssignRow → List (String × String) → Option AssignmentDueDate)
    (hor : ∀ a content dd, oracleD a content = some dd → dd.assignment_id = a.id) :
    ∀ A : List AssignRow,
    ((A.filterMap (fun a => extract_single_due_date oracleD a
        (collect_assignment_content storage a))).map (fun dd => dd.assignment_id))
      = ((A.filter (fun a => (extract_single_due_date oracleD a
            (collect_assignment_content storage a)).isSome)).map AssignRow.id) := by
  intro A
  induction A with
  | nil => rfl
  | cons a rest ih =>
    rw [List.filterMap_cons, List.filter_cons]
    cases hf : extract_single_due_date oracleD a (collect_assignment_content storage a) with
    | none => simp [hf, ih]
    | some dd =>
      have hdid : dd.assignment_id = a.id := hor a _ dd (extract_single_some hf)
      simp [hf, ih, hdid]

/-- If some assignment of the batch has no resolved due date, the
placeholder loop runs and the `AssignmentDueDate(date=None)`
construction raises: `find_due_dates` ends in the exception. -/
theorem find_due_dates_none (storage : String → Option String)
    (oracleD : AssignRow → List (String × String) → Option AssignmentDueDate)
    (hor : ∀ a content dd, oracleD a content = some dd → dd.assignment_id = a.id)
    (A : List AssignRow) (hAnodup : (A.map AssignRow.id).Nodup)
    (a : AssignRow) (haA : a ∈ A)
    (hnone : extract_single_due_date oracleD a
      (collect_assignment_content storage a) = none) :
    find_due_dates storage oracleD A = none := by
  have hnot : ¬ (A.all (fun x =>
      (((A.filterMap (fun y => extract_single_due_date oracleD y
            (collect_assignment_content storage y))).filter (fun dd =>
          (A.map AssignRow.id).contains dd.assignment_id)).map
        (fun dd => dd.assignment_id)).contains x.id) = true) := by
    intro hall
    rw [List.all_eq_true] at hall
    have hc := hall a haA
    have h1 := List.elem_iff.mp hc
    obtain ⟨dd, hdd, hdid⟩ := List.mem_map.mp h1
    have h2 : a.id ∈ (A.filterMap (fun y => extract_single_due_date oracleD y
        (collect_assignment_content storage y))).map (fun dd => dd.assignment_id) :=
      hdid ▸ List.mem_map_of_mem _ (List.mem_of_mem_filter hdd)
    rw [raw_ids storage oracleD hor A] at h2
    obtain ⟨b, hb, hbid⟩ := List.mem_map.mp h2
    have hba : b = a :=
      List.inj_on_of_nodup_map hAnodup (List.mem_of_mem_filter hb) haA hbid
    have hsome : (extract_single_due_date oracleD b
        (collect_assignment_content storage b)).isSome = true :=
      (List.mem_filter.mp hb).2
    rw [hba, hnone] at hsome
    cases hsome
  unfold find_due_dates validate_due_dates
  dsimp only
  rw [if_neg hnot]

/-- **C1** — *code bug*: the pydantic model declares `date: str` as a
required field, so the placeholder construction
`AssignmentDueDate(…, date=None, …)` in `validate_due_dates` raises
`ValidationError`.  Whenever some assignment of the course yields no
resolved due date (no loadable source-page text, an oracle error or a
`null` oracle answer), Stage D therefore fails for the whole JobSync:
`find_due_dates` raises (the result is `none`) and the state comes back
unchanged — no `DueDate` row is created and no `chosen_due_date_id` is
set for *any* assignment, not even those whose dates were found —
contrary to the claimed placeholder that is "persisted and pinned". -/
theorem claim_C1_placeholder_crash (storage : String → Option String)
    (oracleD : AssignRow → List (String × String) → Option AssignmentDueDate)
    (course_id : String) (st : StageDState) (a : AssignRow)
    (hid : (st.assignments.map AssignRow.id).Nodup)
    (hor : ∀ a content dd, oracleD a content = some dd → dd.assignment_id = a.id)
    (ha : a ∈ st.assignments) (hac : a.course_id = course_id)
    (hnone : extract_single_due_date oracleD a
      (collect_assignment_content storage a) = none) :
    stageD storage oracleD course_id st = (st, none) := by
  have hAnodup : ((st.assignments.filter
      (fun x => x.course_id = course_id)).map AssignRow.id).Nodup :=
    hid.sublist ((List.filter_sublist _).map AssignRow.id)
  have haA : a ∈ st.assignments.filter (fun x => x.course_id = course_id) :=
    List.mem_filter.mpr ⟨ha, by simp [hac]⟩
  have hfd := find_due_dates_none storage oracleD hor
    (st.assignments.filter (fun x => x.course_id = course_id)) hAnodup a haA hnone
  unfold stageD
  dsimp only
  rw [hfd]

/-- Witness for C1's crash at a concrete input: one assignment with no
source pages — the resolver collects no content, the placeholder
construction raises, and Stage D returns the state unchanged with no
result list. -/
theorem claim_C1_placeholder_crash_witness :
    stageD (fun _ => none) (fun _ _ => none) "c1"
        ⟨[⟨0, "c1", "HW1", "d", none, none, [], "js", none⟩], [], 0⟩
      = (⟨[⟨0, "c1", "HW1", "d", none, none, [], "js", none⟩], [], 0⟩, none) :=
  claim_C1_placeholder_crash (fun _ => none) (fun _ _ => none) "c1"
    ⟨[⟨0, "c1", "HW1", "d", none, none, [], "js", none⟩], [], 0⟩
    ⟨0, "c1", "HW1", "d", none, none, [], "js", none⟩
    (by decide) (fun a c dd h => by cases h) (by decide) rfl (by decide)

/-! ## The orchestrator (`temporal/courses/activities.py`,
`temporal/courses/workflows.py`)

`CourseSyncWorkflow.run` executes `create_sync_jobs`, returns early when
no job syncs were created, and otherwise fans out the scrape,
assignment and due-date activities over the job-sync ids (parallel
gather in the source; modelled as a sequential fold, which is
write-equivalent here because the per-stage claims below only concern
the `job_sync_groups` table, which no stage activity touches).  Activity
failures are captured as failure results and never abort the workflow;
a failed activity performs no database write, which the `Option`-valued
environment fields model.

The activity `mark_job_sync_group_complete` exists and is registered
with the worker (`run_worker.py`), but **no** code path of
`CourseSyncWorkflow.run` invokes it — neither the early return nor the
end of the pipeline. -/

structure GroupRow where
  id : Nat
  user_id : String
  created_at : String
  completed_at : Option String
deriving DecidableEq, Repr

structure JobSyncRow where
  id : Nat
  job_sync_group_id : Nat
  course_id : String
  source_id : Nat
  scraped_tree : Option PyNode

structure SourceRow where
  id : Nat
  course_id : String
  url : String
deriving DecidableEq, Repr

structure PipeDB where
  job_sync_groups : List GroupRow
  job_syncs : List JobSyncRow
  user_courses : List (String × String)
  sources : List SourceRow
  assignments : List AssignRow
  due_dates : List DueRow
  nextGroupId : Nat
  nextJobSyncId : Nat
  nextAssignId : Nat
  nextDueId : Nat

structure PipeEnv where
  now : String
  scrapeTree : Nat → Option PyNode
  storage : String → Option String
  extractOracle : String → List (String × String) → List ExtractRecord
  dueOracle : AssignRow → List (String × String) → Option AssignmentDueDate

/-- One step of `create_sync_jobs`'s per-source loop: insert a job sync
for `src` into the accumulated database and record its id. -/
def syncJobStep (gid : Nat) (acc : PipeDB × List Nat) (src : SourceRow) :
    PipeDB × List Nat :=
  let jid := acc.1.nextJobSyncId
  ({ acc.1 with
      job_syncs := acc.1.job_syncs ++ [⟨jid, gid, src.course_id, src.id, none⟩]
      nextJobSyncId := jid + 1 }, acc.2 ++ [jid])

/-- `CourseSyncActivities.create_sync_jobs`: insert the group (with
`completed_at` unset), then — unless the user has no courses or the
courses have no sources — one job sync per source.  Returns the group id
and the created job-sync ids. -/
def create_sync_jobs (env : PipeEnv) (user_id : String) (db : PipeDB) :
    PipeDB × Nat × List Nat :=
  let gid := db.nextGroupId
  let db1 := { db with
    job_sync_groups := db.job_sync_groups ++ [⟨gid, user_id, env.now, none⟩]
    nextGroupId := gid + 1 }
  let course_ids := (db.user_courses.filter (fun uc => uc.1 = user_id)).map Prod.snd
  if course_ids.isEmpty then (db1, gid, [])
  else
    let srcs := db.sources.filter (fun s => course_ids.contains s.course_id)
    if srcs.isEmpty then (db1, gid, [])
    else
      let r := srcs.foldl (syncJobStep gid) (db1, [])
      (r.1, gid, r.2)

/-- `CourseSyncActivities.scrape_course`: on success store the scraped
tree on the job sync; any failure (missing rows, browser or crawl
error) yields a failure result with no write. -/
def scrape_course (env : PipeEnv) (jid : Nat) (db : PipeDB) : PipeDB :=
  match db.job_syncs.find? (fun j => j.id = jid) with
  | none => db
  | some j =>
    match db.sources.find? (fun s => s.id = j.source_id) with
    | none => db
    | some _ =>
      match env.scrapeTree jid with
      | none => db
      | some tree =>
        { db with job_syncs := db.job_syncs.map (fun j' =>
            if j'.id = jid then { j' with scraped_tree := some tree } else j') }

/-- `CourseSyncActivities.find_assignments`: short-circuits with a
failure when the job sync or its scraped tree is missing, otherwise runs
the extractor against the course's assignments. -/
def find_assignments (env : PipeEnv) (jid : Nat) (db : PipeDB) : PipeDB :=
  match db.job_syncs.find? (fun j => j.id = jid) with
  | none => db
  | some j =>
    match j.scraped_tree with
    | none => db
    | some tree =>
      let r := extract_all_assignments env.storage env.extractOracle tree
        (toString jid) j.course_id ⟨db.assignments, db.nextAssignId⟩
      { db with assignments := r.1.rows, nextAssignId := r.1.nextId }

/-- `CourseSyncActivities.find_due_dates` on the workflow path
(`assignment_ids = None`): resolve the course's assignments and apply
the updates; when the resolver raises (`stageD`'s second component is
`none`), the activity's `except` returns a failure result and the
database is unchanged (`stageD` then returns the state as it was). -/
def find_due_dates_activity (env : PipeEnv) (jid : Nat) (db : PipeDB) : PipeDB :=
  match db.job_syncs.find? (fun j => j.id = jid) with
  | none => db
  | some j =>
    let r := stageD env.storage env.dueOracle j.course_id
      ⟨db.assignments, db.due_dates, db.nextDueId⟩
    { db with
      assignments := r.1.assignments
      due_dates := r.1.due_dates
      nextDueId := r.1.nextDueId }

/-- `CourseSyncActivities.mark_job_sync_group_complete`: set
`completed_at = now` on the group.  Registered with the worker but
never invoked by the workflow. -/
def mark_job_sync_group_complete (now : String) (group_id : Nat) (db : PipeDB) : PipeDB :=
  { db with job_sync_groups := db.job_sync_groups.map (fun g =>
      if g.id = group_id then { g with completed_at := some now } else g) }

/-- `CourseSyncWorkflow.run`. -/
def workflowRun (env : PipeEnv) (user_id : String) (db : PipeDB) : PipeDB :=
  let r := create_sync_jobs env user_id db
  if r.2.2.isEmpty then r.1
  else
    let db2 := r.2.2.foldl (fun d jid => scrape_course env jid d) r.1
    let db3 := r.2.2.foldl (fun d jid => find_assignments env jid d) db2
    let db4 := r.2.2.foldl (fun d jid => find_due_dates_activity env jid d) db3
    db4

/-! ### The `job_sync_groups` table through the pipeline -/

theorem syncJobFold_groups (gid : Nat) (srcs : List SourceRow)
    (acc : PipeDB × List Nat) :
    (srcs.foldl (syncJobStep gid) acc).1.job_sync_groups
      = acc.1.job_sync_groups := by
  induction srcs generalizing acc with
  | nil => rfl
  | cons src t ih => rw [List.foldl_cons, ih]; rfl

/-- `create_sync_jobs` appends exactly one group row, with
`completed_at = none`, and touches no other group row. -/
theorem create_sync_jobs_groups (env : PipeEnv) (user_id : String)
    (db : PipeDB) :
    (create_sync_jobs env user_id db).1.job_sync_groups
      = db.job_sync_groups ++ [⟨db.nextGroupId, user_id, env.now, none⟩] := by
  unfold create_sync_jobs
  dsimp only
  split
  · rfl
  · split
    · rfl
    · exact syncJobFold_groups db.nextGroupId _ _

theorem scrape_course_groups (env : PipeEnv) (jid : Nat) (db : PipeDB) :
    (scrape_course env jid db).job_sync_groups = db.job_sync_groups := by
  unfold scrape_course
  split
  · rfl
  · split
    · rfl
    · split
      · rfl
      · rfl

theorem find_assignments_groups (env : PipeEnv) (jid : Nat) (db : PipeDB) :
    (find_assignments env jid db).job_sync_groups = db.job_sync_groups := by
  unfold find_assignments
  split
  · rfl
  · split
    · rfl
    · rfl

theorem find_due_dates_activity_groups (env : PipeEnv) (jid : Nat)
    (db : PipeDB) :
    (find_due_dates_activity env jid db).job_sync_groups
      = db.job_sync_groups := by
  unfold find_due_dates_activity
  split
  · rfl
  · rfl

theorem foldl_groups_inv (f : PipeDB → Nat → PipeDB)
    (hf : ∀ d j, (f d j).job_sync_groups = d.job_sync_groups)
    (l : List Nat) (d : PipeDB) :
    (l.foldl f d).job_sync_groups = d.job_sync_groups := by
  induction l generalizing d with
  | nil => rfl
  | cons a t ih => rw [List.foldl_cons, ih, hf]

/-- **C2** — *corrected to a code bug*: on **every** return path of
`CourseSyncWorkflow.run` (the early return when no job syncs were
created as well as the full pipeline), the group row created for the run
still has `completed_at = none`: the workflow inserts the group via
`create_sync_jobs` and no subsequent activity ever writes to
`job_sync_groups`.  `mark_job_sync_group_complete` (which would set
`completed_at = now`) is registered with the worker but never invoked,
so, contrary to the claim, the group is never marked complete. -/
theorem claim_C2_group_never_completed (env : PipeEnv) (user_id : String)
    (db : PipeDB) :
    (workflowRun env user_id db).job_sync_groups
      = db.job_sync_groups ++ [⟨db.nextGroupId, user_id, env.now, none⟩] := by
  unfold workflowRun
  dsimp only
  split
  · exact create_sync_jobs_groups env user_id db
  · rw [foldl_groups_inv (fun d jid => find_due_dates_activity env jid d)
          (fun d j => find_due_dates_activity_groups env j d),
        foldl_groups_inv (fun d jid => find_assignments env jid d)
          (fun d j => find_assignments_groups env j d),
        foldl_groups_inv (fun d jid => scrape_course env jid d)
          (fun d j => scrape_course_groups env j d),
        create_sync_jobs_groups]

end HabituatingServer
